import Mathlib

/-!
Verification of the course-cache core of the `usc-academic-advisor` repository.

The development shallowly embeds the Python sources into Lean:

* strings are embedded as `String` / `List Char` (Python `str.split`,
  `str.strip`, `str.lower`, ... become explicit recursive functions);
* fallible Python code (code that can raise) is embedded into `Except`;
* `pandas` data frames are embedded as lists of row structures, and the
  `Cache` object as a structure with explicit state passing;
* decimal hour values are embedded as exact rationals `ℚ`.

Sources embedded here: `module/util/format.py`, `module/util/match.py`,
`module/api/parse.py`, `module/api/cache.py`, `module/errors/exceptions.py`.
The helpers `time_to_decimal` and `decimal_to_time` are imported by the
sources from `module.util.format` but are not defined anywhere in the
repository; they are modelled from the specification (their doc strings
below say so explicitly).
-/

/-! ## Python-style string primitives (over `List Char`) -/

/-- Python `str.split(sep)` for a one-character separator `sep` applied to a
list of characters: `"".split(s) = [""]`, and every occurrence of the
separator starts a new chunk. -/
def splitSep (sep : Char) : List Char → List (List Char)
  | [] => [[]]
  | c :: rest =>
    match splitSep sep rest with
    | [] => [[c]]
    | w :: ws => if c = sep then [] :: w :: ws else (c :: w) :: ws

/-- Python `str.strip()`: drop leading and trailing whitespace. -/
def stripL (s : List Char) : List Char :=
  ((s.dropWhile Char.isWhitespace).reverse.dropWhile Char.isWhitespace).reverse

/-- Python `str.isdigit()`: non-empty and every character a decimal digit. -/
def pyIsDigit (s : List Char) : Bool :=
  !s.isEmpty && s.all Char.isDigit

/-- Python `int(...)` on a string of decimal digits (the only shape the
embedded code applies it to, always guarded by `isdigit`). -/
def strToNat (s : List Char) : Nat :=
  s.foldl (fun a c => a * 10 + (c.toNat - 48)) 0

/-- The decimal digit characters, used to render numbers back to text. -/
def digitChar : Nat → Char
  | 0 => '0' | 1 => '1' | 2 => '2' | 3 => '3' | 4 => '4'
  | 5 => '5' | 6 => '6' | 7 => '7' | 8 => '8' | 9 => '9'
  | _ => '*'

/-- Decimal rendering of a natural number (Python `f-string` of an `int`). -/
def natToDigits (n : Nat) : List Char :=
  if _h : n < 10 then [digitChar n]
  else natToDigits (n / 10) ++ [digitChar (n % 10)]
decreasing_by exact Nat.div_lt_self (by omega) (by omega)

/-! ## `conv_term` (module/util/format.py) -/

/-- The semester lookup `{"spring": 1, "summer": 2, "fall": 3}[...]` from
`conv_term`; only ever applied under the membership guard, so the final
branch is the `"fall"` case. -/
def seasonDigit (s : List Char) : Nat :=
  if s = "spring".data then 1 else if s = "summer".data then 2 else 3

/-- `conv_term` from `module/util/format.py` on a string argument (an `int`
argument is first turned into its decimal string by the source, and the
`None` argument consults the current date, which is outside the embedding):
a 5-digit string is returned as `int(term)`; `"<Season> <Year>"` with a
season in `{spring, summer, fall}` (case-insensitive) and a 4-digit year
returns `int(f"(year)(semester)")`, the decimal digits of the year followed
by the semester digit; everything else raises `ValueError`. -/
def conv_termL (term : List Char) : Except String Int :=
  if pyIsDigit term && term.length == 5 then
    .ok (strToNat term)
  else
    match splitSep ' ' term with
    | [s, y] =>
      let sl := s.map Char.toLower
      if (sl = "spring".data || sl = "summer".data || sl = "fall".data)
          && pyIsDigit y && y.length == 4 then
        .ok (strToNat (natToDigits (strToNat y) ++ natToDigits (seasonDigit sl)))
      else
        .error "invalid term format"
    | _ => .error "invalid term format"

/-- `conv_term` on a `String`. -/
def conv_term (term : String) : Except String Int :=
  conv_termL term.data

/-! ### Arithmetic facts about the string primitives -/

theorem strToNat_append_singleton (xs : List Char) (c : Char) :
    strToNat (xs ++ [c]) = strToNat xs * 10 + (c.toNat - 48) := by
  simp [strToNat, List.foldl_append]

theorem digitChar_val {n : Nat} (h : n < 10) :
    (digitChar n).toNat - 48 = n := by
  interval_cases n <;> rfl

theorem strToNat_digitChar {n : Nat} (h : n < 10) :
    strToNat [digitChar n] = n := by
  interval_cases n <;> rfl

theorem strToNat_natToDigits (n : Nat) : strToNat (natToDigits n) = n := by
  induction n using Nat.strong_induction_on with
  | _ n ih =>
    rw [natToDigits]
    by_cases h : n < 10
    · simp only [h, dite_true]
      exact strToNat_digitChar h
    · simp only [h, dite_false]
      rw [strToNat_append_singleton, ih (n / 10) (Nat.div_lt_self (by omega) (by omega)),
        digitChar_val (Nat.mod_lt _ (by omega))]
      omega

theorem splitSep_ne_nil (sep : Char) (b : List Char) : splitSep sep b ≠ [] := by
  cases b with
  | nil => simp [splitSep]
  | cons c rest =>
    rw [splitSep]
    rcases splitSep sep rest with _ | ⟨w, ws⟩
    · simp
    · by_cases hc : c = sep <;> simp [hc]

theorem splitSep_of_not_mem {sep : Char} {a : List Char} (h : sep ∉ a) :
    splitSep sep a = [a] := by
  induction a with
  | nil => rfl
  | cons c rest ih =>
    have hc : c ≠ sep := fun hcs => h (hcs ▸ List.mem_cons_self c rest)
    have hr : sep ∉ rest := fun hm => h (List.mem_cons_of_mem c hm)
    rw [splitSep, ih hr]
    simp [hc]

theorem splitSep_append {sep : Char} {a : List Char} (b : List Char) (h : sep ∉ a) :
    splitSep sep (a ++ sep :: b) = a :: splitSep sep b := by
  induction a with
  | nil =>
    simp only [List.nil_append]
    rw [splitSep]
    rcases hs : splitSep sep b with _ | ⟨w, ws⟩
    · exact absurd hs (splitSep_ne_nil sep b)
    · simp [hs]
  | cons c rest ih =>
    have hc : c ≠ sep := fun hcs => h (hcs ▸ List.mem_cons_self c rest)
    have hr : sep ∉ rest := fun hm => h (List.mem_cons_of_mem c hm)
    rw [List.cons_append, splitSep, ih hr]
    simp [hc]

theorem data_append (a b : String) : (a ++ b).data = a.data ++ b.data := by
  cases a; cases b; rfl

theorem natToDigits_of_lt {d : Nat} (h : d < 10) :
    natToDigits d = [digitChar d] := by
  rw [natToDigits]
  simp [h]

theorem strToNat_year_digit (n d : Nat) (hd : d < 10) :
    strToNat (natToDigits n ++ natToDigits d) = n * 10 + d := by
  rw [natToDigits_of_lt hd, strToNat_append_singleton, strToNat_natToDigits,
    digitChar_val hd]

/-- C6: for every valid 5-digit term string `t`, `conv_term` returns `int(t)`
verbatim; and for every case-insensitive season in Spring/Summer/Fall paired
with a 4-digit year, `conv_term "<Season> <Year>"` returns the integer formed
by the year followed by the semester digit (Spring 1, Summer 2, Fall 3, the
value of `seasonDigit`). -/
theorem C6_conv_term_encoding :
    (∀ t : String, t.data.all Char.isDigit = true → t.data.length = 5 →
      conv_term t = .ok (strToNat t.data))
    ∧ (∀ s y : String,
        (s.data.map Char.toLower = "spring".data ∨
         s.data.map Char.toLower = "summer".data ∨
         s.data.map Char.toLower = "fall".data) →
        y.data.all Char.isDigit = true → y.data.length = 4 →
        conv_term (s ++ " " ++ y) =
          .ok (strToNat y.data * 10 + seasonDigit (s.data.map Char.toLower))) := by
  constructor
  · intro t ht h5
    have hne : t.data ≠ [] := by
      intro h
      rw [h] at h5
      simp at h5
    simp [conv_term, conv_termL, pyIsDigit, ht, h5, List.isEmpty_eq_true, hne]
  · intro s y hsl hy h4
    have hy_nospace : ' ' ∉ y.data := by
      intro hmem
      have := List.all_eq_true.mp hy ' ' hmem
      simp [Char.isDigit] at this
    have hs_nospace : ' ' ∉ s.data := by
      intro hmem
      have hm : ' ' ∈ s.data.map Char.toLower :=
        List.mem_map.mpr ⟨' ', hmem, rfl⟩
      rcases hsl with h | h | h <;> rw [h] at hm <;> exact absurd hm (by decide)
    have hyne : y.data ≠ [] := by
      intro h
      rw [h] at h4
      simp at h4
    have hdata : (s ++ " " ++ y).data = s.data ++ ' ' :: y.data := by
      rw [data_append, data_append, List.append_assoc]
      rfl
    have hsp : Char.isDigit ' ' = false := by decide
    have hpy : pyIsDigit y.data = true := by
      have hne : y.data.isEmpty = false := by
        rcases hyd : y.data with _ | ⟨c, cs⟩
        · exact absurd hyd hyne
        · rfl
      simp [pyIsDigit, hy, hne]
    have hnd : pyIsDigit (s.data ++ ' ' :: y.data) = false := by
      simp [pyIsDigit, List.all_append, hsp]
    rw [conv_term, hdata, conv_termL, hnd]
    simp only [Bool.false_and, if_false, Bool.and_eq_true,
      splitSep_append y.data hs_nospace, splitSep_of_not_mem hy_nospace]
    rcases hsl with h | h | h
    · have hv := strToNat_year_digit (strToNat y.data) 1 (by norm_num)
      simp [h, hpy, h4, seasonDigit, hv]
    · have hv := strToNat_year_digit (strToNat y.data) 2 (by norm_num)
      simp [h, hpy, h4, seasonDigit, hv]
    · have hv := strToNat_year_digit (strToNat y.data) 3 (by norm_num)
      simp [h, hpy, h4, seasonDigit, hv]

/-- C6 witness: the two branches of `C6_conv_term_encoding` at the concrete
inputs "20253" and "Fall 2025". -/
theorem C6_conv_term_encoding_witness :
    conv_term "20253" = .ok 20253 ∧ conv_term "Fall 2025" = .ok 20253 := by
  constructor
  · have h := C6_conv_term_encoding.1 "20253" (by decide) (by decide)
    rw [h]
    rfl
  · have h := C6_conv_term_encoding.2 "Fall" "2025" (by decide) (by decide) (by decide)
    rw [show ("Fall" ++ " " ++ "2025" : String) = "Fall 2025" from rfl] at h
    rw [h]
    rfl

/-! ## `time_to_decimal` and `decimal_to_time` (modelled from the spec) -/

/-- Modelled from the spec: `time_to_decimal` is imported by
`module/api/cache.py` from `module.util.format`, but no definition of it
exists anywhere in the repository sources.  Per the spec it converts an
`"HH:MM AM/PM"` string to a decimal hour (24-hour value plus minutes/60,
e.g. `"01:50 PM"` to 13.8333), and an invalid or missing time string
propagates as a sentinel rather than being silently zeroed; the sentinel is
modelled as `none`. -/
def time_to_decimal (s : String) : Option ℚ :=
  match splitSep ' ' s.data with
  | [hm, ap] =>
    match splitSep ':' hm with
    | [h, m] =>
      if pyIsDigit h && pyIsDigit m then
        let hn := strToNat h
        let mn := strToNat m
        if 1 ≤ hn && hn ≤ 12 && mn ≤ 59 && (ap = "AM".data || ap = "PM".data) then
          let h24 : ℚ :=
            if ap = "PM".data then (if hn = 12 then 12 else hn + 12)
            else (if hn = 12 then 0 else hn)
          some (h24 + (mn : ℚ) / 60)
        else none
      else none
    | _ => none
  | _ => none

/-- Modelled from the spec: `decimal_to_time` is imported by
`module/errors/exceptions.py` and `module/ui/schedule.py` from
`module.util.format`, but no definition of it exists anywhere in the
repository sources.  Per the spec's error-handling section it renders a
decimal hour back into a human-readable `"HH:MM AM/PM"` string. -/
def decimal_to_time (q : ℚ) : String :=
  let total : Int := Int.floor (q * 60)
  let h24 : Int := (total / 60) % 24
  let m : Int := total % 60
  let h12 : Int := if h24 % 12 = 0 then 12 else h24 % 12
  let pad : Int → List Char := fun n =>
    [digitChar (n.toNat / 10 % 10), digitChar (n.toNat % 10)]
  String.mk (pad h12 ++ ':' :: pad m ++ [' '] ++ (if h24 < 12 then "AM".data else "PM".data))

/-- C8: `time_to_decimal` maps `"01:50 PM"` to a decimal hour within 0.001 of
13.8333 (the exact value is 13 + 50/60 = 83/6), maps `"09:00 AM"` to exactly
9.0, and propagates invalid or missing time strings as the sentinel `none`
instead of silently zeroing them. -/
theorem C8_time_to_decimal_values :
    time_to_decimal "01:50 PM" = some (83 / 6) ∧
    |(83 / 6 : ℚ) - 138333 / 10000| ≤ 1 / 1000 ∧
    time_to_decimal "09:00 AM" = some 9 ∧
    time_to_decimal "" = none ∧
    time_to_decimal "TBA" = none ∧
    time_to_decimal "25:00 PM" = none := by
  refine ⟨?_, by norm_num [abs_le], ?_, ?_, ?_, ?_⟩
  · have h1 : splitSep ' ' "01:50 PM".data = [['0','1',':','5','0'], ['P','M']] := by decide
    have h2 : splitSep ':' ['0','1',':','5','0'] = [['0','1'], ['5','0']] := by decide
    rw [time_to_decimal, h1]
    simp only [h2]
    norm_num [pyIsDigit, strToNat, Char.isDigit, show Char.toNat '0' = 48 from rfl,
      show Char.toNat '1' = 49 from rfl, show Char.toNat '5' = 53 from rfl]
    decide
  · have h1 : splitSep ' ' "09:00 AM".data = [['0','9',':','0','0'], ['A','M']] := by decide
    have h2 : splitSep ':' ['0','9',':','0','0'] = [['0','9'], ['0','0']] := by decide
    rw [time_to_decimal, h1]
    simp only [h2]
    norm_num [pyIsDigit, strToNat, Char.isDigit, show Char.toNat '0' = 48 from rfl,
      show Char.toNat '9' = 57 from rfl]
    decide
  · have h1 : splitSep ' ' "".data = [[]] := by decide
    rw [time_to_decimal, h1]
  · have h1 : splitSep ' ' "TBA".data = [['T','B','A']] := by decide
    rw [time_to_decimal, h1]
  · have h1 : splitSep ' ' "25:00 PM".data = [['2','5',':','0','0'], ['P','M']] := by decide
    have h2 : splitSep ':' ['2','5',':','0','0'] = [['2','5'], ['0','0']] := by decide
    rw [time_to_decimal, h1]
    simp only [h2]
    norm_num [pyIsDigit, strToNat, Char.isDigit, show Char.toNat '2' = 50 from rfl,
      show Char.toNat '5' = 53 from rfl, show Char.toNat '0' = 48 from rfl]

/-! ## Data rows and the `Cache` object (module/api/cache.py) -/

/-- A raw JSON scalar as it occurs in section records: either a string or an
integer (the upstream payload stores counts sometimes as strings). -/
inductive JVal where
  | s (v : String)
  | i (v : Int)
deriving DecidableEq

/-- A row of the `courses` data frame (columns of `Cache.courses`). -/
structure CourseRow where
  code : String
  dept : String
  term : Int
  title : String
  description : String
  units : Int
deriving DecidableEq

/-- A row of the `sections` data frame (columns of `Cache.sections`).
`number_registered` and `spaces_available` hold the raw payload values
(the source stores them unconverted); `spaces_left` holds the converted
difference. -/
structure SectionRow where
  id : String
  code : String
  dept : String
  term : Int
  title : String
  instructor : String
  location : String
  start_time : String
  end_time : String
  day : String
  spaces_left : Int
  number_registered : JVal
  spaces_available : JVal
  units : Int
deriving DecidableEq

/-- The mutable state of a `Cache` object: the active term, the set of
`(dept, term)` pairs already retrieved, and the two accumulated tables.
(The `depts` directory attribute is only read by `get_courses`/`get_sections`
for department resolution and plays no role in the embedded operations.) -/
structure Cache where
  term : Int
  cached : List (String × Int)
  courses : List CourseRow
  sections : List SectionRow
deriving DecidableEq

/-- `Cache.update_term`: `self.term = conv_term(term)`. -/
def Cache.update_term (c : Cache) (term : String) : Except String Cache :=
  (conv_term term).map (fun t => { c with term := t })

/-- Result of one `Cache.retrieve` call: the state after the call, the
exception it propagated (if any), and whether the external source was
actually contacted during the call. -/
structure RetrieveResult where
  cache : Cache
  err : Option String
  fetched : Bool
deriving DecidableEq

/-- `Cache.retrieve`, parametrised by the external fetch
(`get_courses_dfs(dept, term)`, a network call).  The source first checks
`(dept, self.term) in self.cached` and returns immediately if so; otherwise
it adds the pair to `self.cached` *before* calling `get_courses_dfs`, then
concatenates the returned frames onto the tables.  An exception from the
fetch therefore leaves the pair recorded but the tables untouched. -/
def Cache.retrieve
    (fetch : String → Int → Except String (List CourseRow × List SectionRow))
    (c : Cache) (dept : String) : RetrieveResult :=
  if c.cached.contains (dept, c.term) then
    ⟨c, none, false⟩
  else
    let c1 : Cache := { c with cached := (dept, c.term) :: c.cached }
    match fetch dept c.term with
    | .error e => ⟨c1, some e, true⟩
    | .ok (cs, ss) =>
      ⟨{ c1 with courses := c1.courses ++ cs, sections := c1.sections ++ ss },
        none, true⟩

/-- C3: for every cache state, department and fetch behaviour, two
consecutive `retrieve(dept)` calls under the same current term contact the
external source exactly once when the `(dept, term)` pair is fresh (and never
when it is already recorded): the first call fetches iff the pair was not yet
recorded, and the second call never fetches, returns no error, and leaves the
whole cache state — in particular the courses and sections tables —
unchanged. -/
theorem C3_retrieve_fetches_at_most_once
    (fetch : String → Int → Except String (List CourseRow × List SectionRow))
    (c : Cache) (dept : String) :
    ((c.retrieve fetch dept).fetched = !(c.cached.contains (dept, c.term)))
    ∧ (((c.retrieve fetch dept).cache.retrieve fetch dept).fetched = false)
    ∧ (((c.retrieve fetch dept).cache.retrieve fetch dept).cache
        = (c.retrieve fetch dept).cache)
    ∧ (((c.retrieve fetch dept).cache.retrieve fetch dept).err = none)
    ∧ (((c.retrieve fetch dept).cache.retrieve fetch dept).cache.courses
        = (c.retrieve fetch dept).cache.courses)
    ∧ (((c.retrieve fetch dept).cache.retrieve fetch dept).cache.sections
        = (c.retrieve fetch dept).cache.sections) := by
  by_cases h : (dept, c.term) ∈ c.cached
  · simp [Cache.retrieve, h]
  · rcases hf : fetch dept c.term with e | ⟨cs, ss⟩ <;>
      simp [Cache.retrieve, h, hf]

/-- A schedule event dictionary as built by `Cache.sect_to_sched_dict`
(`label`/`start_hour`/`end_hour`/`day`/`hover`).  The hour fields hold the
result of `time_to_decimal`, i.e. a decimal hour or the sentinel. -/
structure Event where
  label : String
  start_hour : Option ℚ
  end_hour : Option ℚ
  day : List String
  hover : String
deriving DecidableEq

/-- Exceptions raised by the schedule-related cache methods:
`SectionNotFound`, `ScheduleConflictError(sect1, sect2)` (the raise site
carries the two conflicting event dictionaries), and the `TypeError` a
comparison against the missing-time sentinel would raise. -/
inductive SchedError where
  | sectionNotFound (id : String)
  | scheduleConflict (s1 s2 : Event)
  | typeErr
deriving DecidableEq

/-- `Cache.is_valid_section`: `section in self.sections["id"].values` —
membership of the id in the whole sections table (not filtered by the
current term). -/
def Cache.is_valid_section (c : Cache) (s : String) : Bool :=
  c.sections.any (fun r => r.id == s)

/-- `Cache.get_section_data`: raises `SectionNotFound` unless
`is_valid_section`, then returns the first matching row
(`.iloc[0].to_dict()`). -/
def Cache.get_section_data (c : Cache) (s : String) : Except SchedError SectionRow :=
  if c.is_valid_section s then
    match c.sections.find? (fun r => r.id == s) with
    | some r => .ok r
    | none => .error (.sectionNotFound s)
  else
    .error (.sectionNotFound s)

/-- The claim's reading of section validity: the id is present in the
*currently cached term's* rows of the section table.  Stated from the spec's
words, for comparison against `Cache.is_valid_section`. -/
def inCurrentTermTable (c : Cache) (s : String) : Bool :=
  (c.sections.filter (fun r => r.term == c.term)).any (fun r => r.id == s)

/-- A section row fetched under term 20251 (Spring 2025). -/
def sectionRowA : SectionRow :=
  { id := "29903", code := "CSCI 104", dept := "CSCI", term := 20251,
    title := "Data Structures", instructor := "Carter Slocum",
    location := "THH201", start_time := "12:30 PM", end_time := "01:50 PM",
    day := "Tue, Thu", spaces_left := 33, number_registered := .i 87,
    spaces_available := .i 120, units := 4 }

/-- A cache that fetched CSCI under Spring 2025. -/
def cacheSpring : Cache :=
  { term := 20251, cached := [("CSCI", 20251)], courses := [],
    sections := [sectionRowA] }

/-- `cacheSpring` after `update_term("20253")`. -/
def cacheFall : Cache :=
  { term := 20253, cached := [("CSCI", 20251)], courses := [],
    sections := [sectionRowA] }

/-- C9 counterexample: after switching the term away from the one the
section was fetched under, `is_valid_section` still returns `true` and
`get_section_data` still succeeds although the id is absent from the current
term's rows — refuting the claim that validity is scoped to the currently
cached term's section table. -/
theorem C9_counterexample_not_term_scoped :
    cacheSpring.update_term "20253" = .ok cacheFall
    ∧ cacheFall.is_valid_section "29903" = true
    ∧ inCurrentTermTable cacheFall "29903" = false
    ∧ cacheFall.get_section_data "29903" = .ok sectionRowA := by
  refine ⟨rfl, rfl, rfl, rfl⟩

/-- C9 as amended: `is_valid_section(id)` returns `true`, and
`get_section_data(id)` succeeds, exactly when the id occurs anywhere in the
cache's sections table, regardless of the current term (sections fetched
under other terms keep counting after `update_term`); otherwise
`get_section_data` fails with `SectionNotFound`. -/
theorem C9_section_lookup_whole_table (c : Cache) (s : String) :
    (c.is_valid_section s = true ↔ ∃ r ∈ c.sections, r.id = s)
    ∧ ((∃ r, c.get_section_data s = .ok r) ↔ c.is_valid_section s = true)
    ∧ (c.is_valid_section s = false ↔
        c.get_section_data s = .error (.sectionNotFound s))
    ∧ (∀ t : Int,
        (Cache.mk t c.cached c.courses c.sections).is_valid_section s
          = c.is_valid_section s) := by
  have hval : c.is_valid_section s = true ↔ ∃ r ∈ c.sections, r.id = s := by
    simp [Cache.is_valid_section, List.any_eq_true]
  have hok : (∃ r, c.get_section_data s = .ok r) ↔ c.is_valid_section s = true := by
    constructor
    · rintro ⟨r, hr⟩
      by_cases hv : c.is_valid_section s
      · exact hv
      · simp [Cache.get_section_data, hv] at hr
    · intro hv
      rcases hfind : c.sections.find? (fun r => r.id == s) with _ | r
      · rcases hval.mp hv with ⟨r, hrmem, hrid⟩
        have := List.find?_eq_none.mp hfind r hrmem
        simp [hrid] at this
      · exact ⟨r, by simp [Cache.get_section_data, hv, hfind]⟩
  refine ⟨hval, hok, ?_, fun t => rfl⟩
  constructor
  · intro hv
    simp [Cache.get_section_data, hv]
  · intro herr
    by_cases hv : c.is_valid_section s
    · rcases hok.mpr hv with ⟨r, hr⟩
      rw [hr] at herr
      exact absurd herr (by simp)
    · simpa using hv

/-- The initial cache of a fresh session under term 20253 with nothing
fetched yet. -/
def emptyCache : Cache :=
  { term := 20253, cached := [], courses := [], sections := [] }

/-- An external source whose fetch always raises. -/
def failingFetch : String → Int → Except String (List CourseRow × List SectionRow) :=
  fun _ _ => .error "connection failed"

/-- C10 counterexample: when the external fetch raises inside
`retrieve("CSCI")`, the `(dept, term)` pair *is* recorded as fetched by the
failed call, and re-invoking `retrieve("CSCI")` for the same term is a no-op
that does not contact the external source again — refuting the claim that a
failed call leaves the state unchanged and that re-invoking retries. -/
theorem C10_counterexample_failed_fetch_recorded :
    (emptyCache.retrieve failingFetch "CSCI").err = some "connection failed"
    ∧ (emptyCache.retrieve failingFetch "CSCI").cache.cached.contains
        ("CSCI", 20253) = true
    ∧ ((emptyCache.retrieve failingFetch "CSCI").cache.retrieve
        failingFetch "CSCI").fetched = false := by
  refine ⟨rfl, rfl, rfl⟩

/-- C10 as amended: if the external fetch raises during `retrieve(dept)` on a
fresh `(dept, currentTerm)` pair, the exception propagates and the courses
and sections tables are unchanged, but the pair has already been recorded as
fetched before the fetch was attempted, so re-invoking `retrieve(dept)` for
the same term is a no-op that does not attempt the external fetch again. -/
theorem C10_failed_fetch_marks_pair_fetched
    (fetch : String → Int → Except String (List CourseRow × List SectionRow))
    (c : Cache) (dept : String) (e : String)
    (hfail : fetch dept c.term = .error e)
    (hfresh : (dept, c.term) ∉ c.cached) :
    ((c.retrieve fetch dept).err = some e)
    ∧ ((c.retrieve fetch dept).cache.courses = c.courses)
    ∧ ((c.retrieve fetch dept).cache.sections = c.sections)
    ∧ ((c.retrieve fetch dept).cache.cached = (dept, c.term) :: c.cached)
    ∧ (((c.retrieve fetch dept).cache.retrieve fetch dept).fetched = false)
    ∧ (((c.retrieve fetch dept).cache.retrieve fetch dept).cache
        = (c.retrieve fetch dept).cache) := by
  simp [Cache.retrieve, hfail, hfresh]

/-- C10 witness: the amended theorem applied to the fresh cache and the
always-failing fetch. -/
theorem C10_failed_fetch_marks_pair_fetched_witness :
    ((emptyCache.retrieve failingFetch "CSCI").err = some "connection failed")
    ∧ ((emptyCache.retrieve failingFetch "CSCI").cache.courses = emptyCache.courses)
    ∧ ((emptyCache.retrieve failingFetch "CSCI").cache.sections = emptyCache.sections)
    ∧ ((emptyCache.retrieve failingFetch "CSCI").cache.cached
        = ("CSCI", 20253) :: emptyCache.cached)
    ∧ (((emptyCache.retrieve failingFetch "CSCI").cache.retrieve
        failingFetch "CSCI").fetched = false)
    ∧ (((emptyCache.retrieve failingFetch "CSCI").cache.retrieve
        failingFetch "CSCI").cache = (emptyCache.retrieve failingFetch "CSCI").cache) :=
  C10_failed_fetch_marks_pair_fetched failingFetch emptyCache "CSCI"
    "connection failed" rfl (by simp [emptyCache])

/-! ## Schedule assembly and conflict detection (`Cache.sect_to_sched_dict`) -/

/-- Python `str.split(", ")` (two-character separator), used on the stored
`day` string, e.g. `"Tue, Thu"` to `["Tue", "Thu"]`. -/
def splitCommaSpace : List Char → List (List Char)
  | [] => [[]]
  | ',' :: ' ' :: rest => [] :: splitCommaSpace rest
  | c :: rest =>
    match splitCommaSpace rest with
    | [] => [[c]]
    | w :: ws => (c :: w) :: ws

/-- Build one event dictionary from a section row, as the comprehension in
`sect_to_sched_dict` does: label/start_hour/end_hour/day/hover. -/
def rowToEvent (r : SectionRow) : Event :=
  { label := r.code ++ " - " ++ r.id ++ "<br>" ++ r.instructor ++ "<br>@" ++ r.location,
    start_hour := time_to_decimal r.start_time,
    end_hour := time_to_decimal r.end_time,
    day := (splitCommaSpace r.day.data).map String.mk,
    hover := r.title ++ " (" ++ toString r.units ++ " un.)<br>" ++ r.day ++
      ",  " ++ r.start_time ++ " – " ++ r.end_time }

/-- The rows selected by `self.sections[self.sections["id"].isin(sections)]`:
the table rows, in table order, whose id occurs in the requested list. -/
def Cache.selectedRows (c : Cache) (ids : List String) : List SectionRow :=
  c.sections.filter (fun r => ids.contains r.id)

/-- The validity loop of `sect_to_sched_dict`: raise `SectionNotFound` for
the first requested id that is not in the table's id column. -/
def Cache.validateSections (c : Cache) : List String → Except SchedError Unit
  | [] => .ok ()
  | s :: rest =>
    if c.sections.any (fun r => r.id == s) then c.validateSections rest
    else .error (.sectionNotFound s)

/-- Python `<=` on two stored hour values: defined on two numbers, raises
`TypeError` when either side is the missing-time sentinel. -/
def hourLe : Option ℚ → Option ℚ → Except SchedError Bool
  | some a, some b => .ok (decide (a ≤ b))
  | _, _ => .error .typeErr

/-- `set(sect1["day"]) & set(sect2["day"])` is truthy: the day lists share an
element. -/
def daysShare (d1 d2 : List String) : Bool :=
  d1.any (fun d => d2.contains d)

/-- One iteration of the conflict loop: if the day sets intersect and not
(`end1 <= start2 or end2 <= start1`), raise
`ScheduleConflictError(sect1, sect2)`. -/
def checkPair (s1 s2 : Event) : Except SchedError Unit :=
  if daysShare s1.day s2.day then
    match hourLe s1.end_hour s2.start_hour with
    | .error e => .error e
    | .ok true => .ok ()
    | .ok false =>
      match hourLe s2.end_hour s1.start_hour with
      | .error e => .error e
      | .ok true => .ok ()
      | .ok false => .error (.scheduleConflict s1 s2)
  else
    .ok ()

/-- The inner loop `for sect2 in data[i + 1:]`. -/
def checkAgainst (s1 : Event) : List Event → Except SchedError Unit
  | [] => .ok ()
  | s2 :: rest =>
    match checkPair s1 s2 with
    | .ok _ => checkAgainst s1 rest
    | .error e => .error e

/-- The outer loop `for i, sect1 in enumerate(data)` paired with
`data[i + 1:]`. -/
def checkAll : List Event → Except SchedError Unit
  | [] => .ok ()
  | s1 :: rest =>
    match checkAgainst s1 rest with
    | .ok _ => checkAll rest
    | .error e => .error e

/-- `Cache.sect_to_sched_dict`: validate every requested id, build the event
dictionaries from the selected rows, run the pairwise conflict check, and
return the full event list when no pair conflicts. -/
def Cache.sect_to_sched_dict (c : Cache) (ids : List String) :
    Except SchedError (List Event) :=
  match c.validateSections ids with
  | .error e => .error e
  | .ok _ =>
    let data := (c.selectedRows ids).map rowToEvent
    match checkAll data with
    | .error e => .error e
    | .ok _ => .ok data

/-- The spec's conflict predicate on two built events: the day sets intersect
and the half-open hour intervals overlap (they do not overlap exactly when
`end1 ≤ start2` or `end2 ≤ start1`).  Stated from the spec's words for
comparison with the code's loop; meaningful on events whose hours parsed. -/
def conflictB (x y : Event) : Bool :=
  daysShare x.day y.day &&
    !(decide (x.end_hour.getD 0 ≤ y.start_hour.getD 0) ||
      decide (y.end_hour.getD 0 ≤ x.start_hour.getD 0))

/-- An event whose two time strings parsed to numeric hours. -/
def eventTimed (e : Event) : Prop :=
  e.start_hour.isSome ∧ e.end_hour.isSome

theorem checkPair_eq_of_timed {x y : Event} (hx : eventTimed x) (hy : eventTimed y) :
    checkPair x y = if conflictB x y then .error (.scheduleConflict x y) else .ok () := by
  rcases Option.isSome_iff_exists.mp hx.1 with ⟨xs, hxs⟩
  rcases Option.isSome_iff_exists.mp hx.2 with ⟨xe, hxe⟩
  rcases Option.isSome_iff_exists.mp hy.1 with ⟨ys, hys⟩
  rcases Option.isSome_iff_exists.mp hy.2 with ⟨ye, hye⟩
  simp only [checkPair, conflictB, hourLe, hxs, hxe, hys, hye, Option.getD_some]
  by_cases hd : daysShare x.day y.day
  · simp only [hd, if_true, Bool.true_and]
    by_cases h1 : xe ≤ ys
    · simp [h1]
    · by_cases h2 : ye ≤ xs <;> simp [h1, h2]
  · simp [hd]

theorem checkAgainst_ok_iff {s : Event} {l : List Event} (hs : eventTimed s)
    (hl : ∀ e ∈ l, eventTimed e) :
    checkAgainst s l = .ok () ↔ ∀ x ∈ l, conflictB s x = false := by
  induction l with
  | nil => simp [checkAgainst]
  | cons a rest ih =>
    have ha := hl a (List.mem_cons_self a rest)
    have hrest : ∀ e ∈ rest, eventTimed e :=
      fun e he => hl e (List.mem_cons_of_mem a he)
    rw [checkAgainst, checkPair_eq_of_timed hs ha]
    cases hc : conflictB s a with
    | true => simp [hc, List.forall_mem_cons]
    | false => simp [hc, List.forall_mem_cons, ih hrest]

theorem checkAgainst_not_ok {s : Event} {l : List Event} (hs : eventTimed s)
    (hl : ∀ e ∈ l, eventTimed e) (h : checkAgainst s l ≠ .ok ()) :
    ∃ x ∈ l, checkAgainst s l = .error (.scheduleConflict s x)
      ∧ conflictB s x = true := by
  induction l with
  | nil => exact absurd rfl h
  | cons a rest ih =>
    have ha := hl a (List.mem_cons_self a rest)
    have hrest : ∀ e ∈ rest, eventTimed e :=
      fun e he => hl e (List.mem_cons_of_mem a he)
    rw [checkAgainst, checkPair_eq_of_timed hs ha] at h ⊢
    cases hc : conflictB s a with
    | true =>
      exact ⟨a, List.mem_cons_self a rest, by simp [hc], hc⟩
    | false =>
      simp only [hc, if_false] at h ⊢
      obtain ⟨x, hx, heq, hcx⟩ := ih hrest h
      exact ⟨x, List.mem_cons_of_mem a hx, heq, hcx⟩

theorem checkAll_ok_iff {l : List Event} (hl : ∀ e ∈ l, eventTimed e) :
    checkAll l = .ok () ↔ l.Pairwise (fun x y => conflictB x y = false) := by
  induction l with
  | nil => simp [checkAll]
  | cons a rest ih =>
    have ha := hl a (List.mem_cons_self a rest)
    have hrest : ∀ e ∈ rest, eventTimed e :=
      fun e he => hl e (List.mem_cons_of_mem a he)
    by_cases hca : checkAgainst a rest = .ok ()
    · have h1 := (checkAgainst_ok_iff ha hrest).mp hca
      simp only [checkAll, hca]
      rw [List.pairwise_cons, ih hrest]
      exact ⟨fun hp => ⟨h1, hp⟩, fun hp => hp.2⟩
    · obtain ⟨x, hx, heq, hcx⟩ := checkAgainst_not_ok ha hrest hca
      simp only [checkAll, heq]
      rw [List.pairwise_cons]
      constructor
      · intro hfalse
        exact absurd hfalse (by simp)
      · rintro ⟨hall, _⟩
        rw [hall x hx] at hcx
        exact absurd hcx (by simp)

theorem checkAll_err_shape {l : List Event} (hl : ∀ e ∈ l, eventTimed e)
    (h : checkAll l ≠ .ok ()) :
    ∃ u v, checkAll l = .error (.scheduleConflict u v) ∧ conflictB u v = true := by
  induction l with
  | nil => exact absurd rfl h
  | cons a rest ih =>
    have ha := hl a (List.mem_cons_self a rest)
    have hrest : ∀ e ∈ rest, eventTimed e :=
      fun e he => hl e (List.mem_cons_of_mem a he)
    by_cases hca : checkAgainst a rest = .ok ()
    · rw [checkAll, hca] at h ⊢
      exact ih hrest h
    · obtain ⟨x, hx, heq, hcx⟩ := checkAgainst_not_ok ha hrest hca
      rw [checkAll, heq]
      exact ⟨a, x, rfl, hcx⟩

theorem validateSections_ok {c : Cache} {ids : List String}
    (h : ∀ s ∈ ids, c.sections.any (fun r => r.id == s) = true) :
    c.validateSections ids = .ok () := by
  induction ids with
  | nil => rfl
  | cons a rest ih =>
    rw [Cache.validateSections, if_pos (h a (List.mem_cons_self a rest))]
    exact ih (fun s hs => h s (List.mem_cons_of_mem a hs))

/-- C1: for every list of valid section ids whose selected rows all carry
parseable times, `sect_to_sched_dict` reaches the
`raise ScheduleConflictError` statement if and only if some unordered pair
of the built events has intersecting day sets and overlapping half-open hour
intervals (`[s1,e1)` and `[s2,e2)` overlap unless `e1 ≤ s2` or `e2 ≤ s1`, so
touching intervals on a shared day are not a conflict), and when no pair
conflicts the full list of built events is returned. -/
theorem C1_sect_to_sched_dict_conflict_iff (c : Cache) (ids : List String)
    (hvalid : ∀ s ∈ ids, c.sections.any (fun r => r.id == s) = true)
    (htimed : ∀ e ∈ (c.selectedRows ids).map rowToEvent, eventTimed e) :
    ((∃ u v, c.sect_to_sched_dict ids = .error (.scheduleConflict u v)) ↔
      ¬ ((c.selectedRows ids).map rowToEvent).Pairwise
          (fun x y => conflictB x y = false))
    ∧ (((c.selectedRows ids).map rowToEvent).Pairwise
          (fun x y => conflictB x y = false) ↔
        c.sect_to_sched_dict ids = .ok ((c.selectedRows ids).map rowToEvent))
    ∧ (¬ ((c.selectedRows ids).map rowToEvent).Pairwise
          (fun x y => conflictB x y = false) ↔
        ∃ i j, ∃ (hi : i < ((c.selectedRows ids).map rowToEvent).length)
          (hj : j < ((c.selectedRows ids).map rowToEvent).length),
          i < j ∧ conflictB (((c.selectedRows ids).map rowToEvent).get ⟨i, hi⟩)
            (((c.selectedRows ids).map rowToEvent).get ⟨j, hj⟩) = true) := by
  have hv := validateSections_ok hvalid
  refine ⟨⟨?_, ?_⟩, ⟨?_, ?_⟩, ?_⟩
  · rintro ⟨u, v, herr⟩ hpw
    have hok := (checkAll_ok_iff htimed).mpr hpw
    simp only [Cache.sect_to_sched_dict, hv, hok] at herr
    exact absurd herr (by simp)
  · intro hnpw
    have hne : checkAll ((c.selectedRows ids).map rowToEvent) ≠ .ok () :=
      fun hok => hnpw ((checkAll_ok_iff htimed).mp hok)
    obtain ⟨u, v, heq, _⟩ := checkAll_err_shape htimed hne
    exact ⟨u, v, by simp only [Cache.sect_to_sched_dict, hv, heq]⟩
  · intro hpw
    have hok := (checkAll_ok_iff htimed).mpr hpw
    simp only [Cache.sect_to_sched_dict, hv, hok]
  · intro hres
    by_cases hok : checkAll ((c.selectedRows ids).map rowToEvent) = .ok ()
    · exact (checkAll_ok_iff htimed).mp hok
    · obtain ⟨u, v, heq, _⟩ := checkAll_err_shape htimed hok
      simp only [Cache.sect_to_sched_dict, hv, heq] at hres
      exact absurd hres (by simp)
  · rw [List.pairwise_iff_getElem]
    push_neg
    constructor
    · rintro ⟨i, j, hi, hj, hij, hc⟩
      exact ⟨i, j, hi, hj, hij, by simpa using hc⟩
    · rintro ⟨i, j, hi, hj, hij, hc⟩
      exact ⟨i, j, hi, hj, hij, by simpa using hc⟩

/-- A Monday 9:00-10:30 lecture section. -/
def sectionRowM1 : SectionRow :=
  { id := "11111", code := "CSCI 104", dept := "CSCI", term := 20253,
    title := "Data Structures", instructor := "A Lecturer", location := "SGM124",
    start_time := "09:00 AM", end_time := "10:30 AM", day := "Mon",
    spaces_left := 5, number_registered := .i 10, spaces_available := .i 15,
    units := 4 }

/-- A Monday 10:30-11:00 lecture section, starting exactly when the first
ends. -/
def sectionRowM2 : SectionRow :=
  { id := "22222", code := "CSCI 170", dept := "CSCI", term := 20253,
    title := "Discrete Methods", instructor := "B Lecturer", location := "THH101",
    start_time := "10:30 AM", end_time := "11:00 AM", day := "Mon",
    spaces_left := 5, number_registered := .i 10, spaces_available := .i 15,
    units := 4 }

/-- A cache holding the two touching Monday sections. -/
def cacheMon : Cache :=
  { term := 20253, cached := [("CSCI", 20253)], courses := [],
    sections := [sectionRowM1, sectionRowM2] }

/-- C1 witness: the theorem applied to the two touching Monday sections
(9:00-10:30 and 10:30-11:00 on a shared day): touching half-open intervals
are not a conflict, so the full two-event list is returned. -/
theorem C1_sect_to_sched_dict_conflict_iff_witness :
    cacheMon.sect_to_sched_dict ["11111", "22222"] =
      .ok ((cacheMon.selectedRows ["11111", "22222"]).map rowToEvent) := by
  have h1030 : time_to_decimal "10:30 AM" = some (21 / 2) := by
    have h1 : splitSep ' ' "10:30 AM".data = [['1','0',':','3','0'], ['A','M']] := by decide
    have h2 : splitSep ':' ['1','0',':','3','0'] = [['1','0'], ['3','0']] := by decide
    rw [time_to_decimal, h1]
    simp only [h2]
    norm_num [pyIsDigit, strToNat, Char.isDigit, show Char.toNat '1' = 49 from rfl,
      show Char.toNat '0' = 48 from rfl, show Char.toNat '3' = 51 from rfl,
      show (('A' : Char) = 'P') ↔ False from by decide]
    decide
  have hevs : (cacheMon.selectedRows ["11111", "22222"]).map rowToEvent
      = [rowToEvent sectionRowM1, rowToEvent sectionRowM2] := rfl
  have hps : (rowToEvent sectionRowM1).start_hour = time_to_decimal "09:00 AM" := rfl
  have hpe : (rowToEvent sectionRowM1).end_hour = some (21 / 2) := h1030
  have hqs : (rowToEvent sectionRowM2).start_hour = some (21 / 2) := h1030
  have hqe : (rowToEvent sectionRowM2).end_hour = time_to_decimal "11:00 AM" := rfl
  have h900 : time_to_decimal "09:00 AM" = some 9 := by
    have h1 : splitSep ' ' "09:00 AM".data = [['0','9',':','0','0'], ['A','M']] := by decide
    have h2 : splitSep ':' ['0','9',':','0','0'] = [['0','9'], ['0','0']] := by decide
    rw [time_to_decimal, h1]
    simp only [h2]
    norm_num [pyIsDigit, strToNat, Char.isDigit, show Char.toNat '0' = 48 from rfl,
      show Char.toNat '9' = 57 from rfl, show (('A' : Char) = 'P') ↔ False from by decide]
    decide
  have h1100 : time_to_decimal "11:00 AM" = some 11 := by
    have h1 : splitSep ' ' "11:00 AM".data = [['1','1',':','0','0'], ['A','M']] := by decide
    have h2 : splitSep ':' ['1','1',':','0','0'] = [['1','1'], ['0','0']] := by decide
    rw [time_to_decimal, h1]
    simp only [h2]
    norm_num [pyIsDigit, strToNat, Char.isDigit, show Char.toNat '0' = 48 from rfl,
      show Char.toNat '1' = 49 from rfl, show (('A' : Char) = 'P') ↔ False from by decide]
    decide
  have htimed : ∀ e ∈ (cacheMon.selectedRows ["11111", "22222"]).map rowToEvent,
      eventTimed e := by
    rw [hevs]
    intro e he
    rcases List.mem_cons.mp he with rfl | he2
    · exact ⟨by rw [hps, h900]; rfl, by rw [hpe]; rfl⟩
    · rcases List.mem_singleton.mp he2 with rfl
      exact ⟨by rw [hqs]; rfl, by rw [hqe, h1100]; rfl⟩
  have hcb : conflictB (rowToEvent sectionRowM1) (rowToEvent sectionRowM2) = false := by
    simp [conflictB, hpe, hqs]
  have hpw : ((cacheMon.selectedRows ["11111", "22222"]).map rowToEvent).Pairwise
      (fun x y => conflictB x y = false) := by
    rw [hevs]
    exact List.pairwise_cons.mpr
      ⟨fun x hx => by rcases List.mem_singleton.mp hx with rfl; exact hcb,
        List.pairwise_singleton _ _⟩
  exact (C1_sect_to_sched_dict_conflict_iff cacheMon ["11111", "22222"]
    (by decide) htimed).2.1.mp hpw

/-! ## `ScheduleConflictError.__init__` (module/errors/exceptions.py) -/

/-- Python exceptions that the error constructor's body can itself raise. -/
inductive PyExn where
  | typeErr
  | keyErr (k : String)
  | attrErr
  | indexErr
  | valueErr
deriving DecidableEq

/-- A Python value as stored in an event dictionary. -/
inductive PyVal where
  | vStr (s : String)
  | vNum (q : ℚ)
  | vNone
  | vList (l : List PyVal)

/-- The event dictionary passed to `ScheduleConflictError`: exactly the keys
written by `sect_to_sched_dict`, with the scalar hour value (or the missing
sentinel) under `start_hour`/`end_hour` and the day list under `day`. -/
def Event.toDict (e : Event) : List (String × PyVal) :=
  [("label", .vStr e.label),
   ("start_hour", match e.start_hour with | some q => .vNum q | none => .vNone),
   ("end_hour", match e.end_hour with | some q => .vNum q | none => .vNone),
   ("day", .vList (e.day.map PyVal.vStr)),
   ("hover", .vStr e.hover)]

/-- Python `d[k]` on a dict: `KeyError` when the key is absent. -/
def dictGetP (d : List (String × PyVal)) (k : String) : Except PyExn PyVal :=
  match d.find? (fun p => p.1 == k) with
  | some p => .ok p.2
  | none => .error (.keyErr k)

/-- Python `v[i]` subscripting: lists and strings are indexable
(`IndexError` out of range); subscripting a number or `None` raises
`TypeError`. -/
def getItem (v : PyVal) (i : Nat) : Except PyExn PyVal :=
  match v with
  | .vList l => match l.get? i with | some x => .ok x | none => .error .indexErr
  | .vStr s =>
    match s.data.get? i with
    | some c => .ok (.vStr (String.mk [c]))
    | none => .error .indexErr
  | _ => .error .typeErr

/-- Use of a value as a string (e.g. calling `.split` on it): anything else
raises `AttributeError`. -/
def asStr : PyVal → Except PyExn String
  | .vStr s => .ok s
  | _ => .error .attrErr

/-- Use of a value as a number (argument of `decimal_to_time`). -/
def asNum : PyVal → Except PyExn ℚ
  | .vNum q => .ok q
  | _ => .error .typeErr

/-- Use of a value as an iterable of strings (`", ".join(...)` argument). -/
def asStrList : PyVal → Except PyExn (List String)
  | .vList l => l.mapM asStr
  | .vStr s => .ok (s.data.map (fun c => String.mk [c]))
  | _ => .error .typeErr

/-- Everything before the first `"<br>"`: `label.split("<br>")[0]`. -/
def firstBeforeBr : List Char → List Char
  | '<' :: 'b' :: 'r' :: '>' :: _ => []
  | c :: rest => c :: firstBeforeBr rest
  | [] => []

/-- The `sect_N_time` expression of `ScheduleConflictError.__init__`:
`(f"{decimal_to_time(sect['start_hour'][0])} - "
  f"{decimal_to_time(sect['end_hour'][1])} on " ", ").join(sect["days"])`
— the adjacent string literals concatenate into a single `join` separator,
and the two subscripts and the `"days"` lookup are evaluated first. -/
def sectTimeExpr (sect : List (String × PyVal)) : Except PyExn String := do
  let sh ← dictGetP sect "start_hour"
  let sh0 ← getItem sh 0
  let q0 ← asNum sh0
  let eh ← dictGetP sect "end_hour"
  let eh1 ← getItem eh 1
  let q1 ← asNum eh1
  let ds ← dictGetP sect "days"
  let dl ← asStrList ds
  pure (String.intercalate
    (decimal_to_time q0 ++ " - " ++ decimal_to_time q1 ++ " on " ++ ", ") dl)

/-- `ScheduleConflictError.__init__(section_1, section_2)` from
`module/errors/exceptions.py`: compute the two label prefixes, the two time
strings, and the final message in source order (any exception raised by a
subexpression propagates out of the constructor). -/
def scheduleConflictErrorInit (s1 s2 : List (String × PyVal)) :
    Except PyExn String := do
  let l1 ← dictGetP s1 "label"
  let l1s ← asStr l1
  let sid1 := String.mk (firstBeforeBr l1s.data)
  let l2 ← dictGetP s2 "label"
  let l2s ← asStr l2
  let sid2 := String.mk (firstBeforeBr l2s.data)
  let t1 ← sectTimeExpr s1
  let t2 ← sectTimeExpr s2
  pure ("Schedule conflict detected:\n" ++ "Section 1: " ++ sid1 ++ " at " ++ t1 ++
    "\n" ++ "Section 2: " ++ sid2 ++ " at " ++ t2)

/-- C2 refuted (code bug): for *every* pair of event dictionaries as built by
`sect_to_sched_dict` — scalar (or sentinel) `start_hour`/`end_hour` and a
`day` list — constructing `ScheduleConflictError` raises `TypeError` instead
of producing a message: the constructor subscripts the scalar
`section["start_hour"][0]` (and would also read the nonexistent `"days"`
key), so it never yields the labels-and-time-ranges message the claim
describes. -/
theorem C2_conflict_error_constructor_raises (e1 e2 : Event) :
    scheduleConflictErrorInit e1.toDict e2.toDict = .error .typeErr := by
  obtain ⟨l, sh, eh, d, hv⟩ := e1
  rcases sh with _ | q <;> rfl

/-! ## Ingest parsing (module/api/parse.py with helpers from
module/util/format.py) -/

/-- `pad2`: the exactly-two-digit zero-padded rendering `strftime` uses for
`%I` (01-12) and `%M` (00-59). -/
def pad2 (n : Nat) : List Char :=
  [digitChar (n / 10 % 10), digitChar (n % 10)]

/-- `conv_time` from `module/util/format.py`: reformat an `"H:MM"`/`"HH:MM"`
24-hour string into `"%I:%M %p"`; on a parse failure (`ValueError`) return
the original string unchanged. -/
def conv_time (t : String) : String :=
  match splitSep ':' t.data with
  | [h, m] =>
    if pyIsDigit h && h.length ≤ 2 && pyIsDigit m && m.length ≤ 2 then
      let hn := strToNat h
      let mn := strToNat m
      if hn ≤ 23 && mn ≤ 59 then
        let h12 := if hn % 12 = 0 then 12 else hn % 12
        String.mk (pad2 h12 ++ ':' :: pad2 mn) ++ " " ++
          (if hn < 12 then "AM" else "PM")
      else t
    else t
  | _ => t

/-- `conv_time(section_data.get("start_time", None))`: a missing time key
passes `None` to `strptime`, which raises `TypeError` — the source only
catches `ValueError`. -/
def convTimeOpt : Option String → Except PyExn String
  | some t => .ok (conv_time t)
  | none => .error .typeErr

/-- The `day_of_week` table of `conv_days`. -/
def dayMap (c : Char) : Option String :=
  if c = 'M' then some "Mon" else if c = 'T' then some "Tue"
  else if c = 'W' then some "Wed" else if c = 'H' then some "Thu"
  else if c = 'F' then some "Fri" else if c = 'S' then some "Sat"
  else if c = 'U' then some "Sun" else none

/-- `conv_days` from `module/util/format.py`: non-string input gives `"N/A"`;
otherwise keep the characters that are day keys and join their day names
with `", "`. -/
def conv_days : JVal → String
  | .s v => String.intercalate ", " (v.data.filterMap dayMap)
  | _ => "N/A"

/-- The duck-typed instructor payload: absent (`.get` default `None`), a
single dict, a list of dicts, or any other shape. -/
inductive InstrData where
  | absent
  | single (d : List (String × String))
  | several (l : List (List (String × String)))
  | other

/-- Python `d[k]` on a dict of strings: `KeyError` when absent. -/
def dGetS (d : List (String × String)) (k : String) : Except PyExn String :=
  match d.find? (fun p => p.1 == k) with
  | some p => .ok p.2
  | none => .error (.keyErr k)

/-- `conv_instr` from `module/util/format.py`: a list of dicts is joined as
`"first_name last_name"` pairs, one dict gives one such pair, anything else
gives `"N/A"`; a dict without the `first_name`/`last_name` keys raises
`KeyError`. -/
def conv_instr : InstrData → Except PyExn String
  | .several l => do
    let parts ← l.mapM (fun d => do
      let f ← dGetS d "first_name"
      let g ← dGetS d "last_name"
      pure (f ++ " " ++ g))
    pure (String.intercalate ", " parts)
  | .single d => do
    let f ← dGetS d "first_name"
    let g ← dGetS d "last_name"
    pure (f ++ " " ++ g)
  | _ => pure "N/A"

/-- Python `int(...)` on a raw payload value: an `int` is returned, a string
of digits is parsed, anything else raises `ValueError`.  (CPython also
accepts surrounding whitespace and a sign; the payloads fed to this embedding
are plain digit strings or ints.) -/
def pyInt : JVal → Except PyExn Int
  | .i v => .ok v
  | .s v => if pyIsDigit v.data then .ok (strToNat v.data) else .error .valueErr

/-- `int(course_data["CourseData"]["units"][0])`: the *first character* of
the units string, parsed as an int (`IndexError` on an empty string). -/
def unitsInt (units : String) : Except PyExn Int :=
  match units.data with
  | [] => .error .indexErr
  | c :: _ => pyInt (.s (String.mk [c]))

/-- A raw `SectionData` record: every field read through `.get` is an
`Option`; `day`/counts may be strings or ints. -/
structure RawSection where
  typ : Option String
  id : Option String
  instructor : InstrData
  location : Option String
  start_time : Option String
  end_time : Option String
  day : Option JVal
  spaces_available : Option JVal
  number_registered : Option JVal

/-- A raw `CourseData` record.  `pfx` is the JSON `prefix` field;
`number`, `title`, `description`, `units` are accessed unconditionally by
the source; `sequence`/`section_title` model the isinstance-guarded reads
(a non-string payload behaves like `none`); `sectionData` is the
`SectionData` entry with a single dict already normalised to a one-element
list, as lines 92-96 of parse.py do. -/
structure RawCourse where
  pfx : String
  number : String
  title : String
  description : String
  units : String
  sequence : Option String
  section_title : Option String
  sectionData : List RawSection

/-- The parsed response body: `raw_data["OfferedCourses"]["course"]`. -/
structure RawData where
  courses : List RawCourse

/-- The course code built twice in parse.py:
`f"{prefix} {number}" + (sequence if isinstance(sequence, str) else "")`. -/
def courseCode (c : RawCourse) : String :=
  c.pfx ++ " " ++ c.number ++ (match c.sequence with | some s => s | none => "")

/-- One course row as appended by lines 76-90 of parse.py (only the units
conversion can raise). -/
def buildCourseRow (term : Int) (c : RawCourse) : Except PyExn CourseRow := do
  let u ← unitsInt c.units
  pure { code := courseCode c, dept := c.pfx, term := term, title := c.title,
         description := c.description, units := u }

/-- One section row as appended by lines 104-136 of parse.py, with the
fallible conversions evaluated in source order (instructor, start time, end
time, the two seat counts, units); the `title` field uses `section_title`
when it is a present string and the course title otherwise. -/
def buildSectionRow (term : Int) (c : RawCourse) (s : RawSection) (sid : String) :
    Except PyExn SectionRow := do
  let instr ← conv_instr s.instructor
  let st ← convTimeOpt s.start_time
  let et ← convTimeOpt s.end_time
  let sa ← pyInt (s.spaces_available.getD (.i 0))
  let nr ← pyInt (s.number_registered.getD (.i 0))
  let u ← unitsInt c.units
  pure { id := sid, code := courseCode c, dept := c.pfx, term := term,
         title := (match c.section_title with | some st2 => st2 | none => c.title),
         instructor := instr, location := s.location.getD "N/A",
         start_time := st, end_time := et,
         day := conv_days (s.day.getD (.s "")),
         spaces_left := sa - nr,
         number_registered := s.number_registered.getD (.i 0),
         spaces_available := s.spaces_available.getD (.i 0),
         units := u }

/-- The section filter of lines 97-102: the record is kept iff its `type`
field is exactly `"Lec"` and it has an `id` key. -/
def keepSection (s : RawSection) : Bool :=
  s.typ == some "Lec" && s.id.isSome

/-- The inner section loop of parse.py: skip records whose `type` is not
`"Lec"`, skip records without an `id`, build a row for the rest; any
exception from a build aborts the whole call. -/
def buildSections (term : Int) (c : RawCourse) :
    List RawSection → Except PyExn (List SectionRow)
  | [] => .ok []
  | s :: rest =>
    if (s.typ == some "Lec") = false then
      buildSections term c rest
    else
      match s.id with
      | none => buildSections term c rest
      | some sid =>
        match buildSectionRow term c s sid with
        | .error e => .error e
        | .ok row =>
          match buildSections term c rest with
          | .error e => .error e
          | .ok rows => .ok (row :: rows)

/-- The outer course loop of `get_courses_dfs`: one course row then that
course's section rows, accumulated over all courses. -/
def gcdfGo (term : Int) : List RawCourse → Except PyExn (List CourseRow × List SectionRow)
  | [] => .ok ([], [])
  | c :: rest =>
    match buildCourseRow term c with
    | .error e => .error e
    | .ok cr =>
      match buildSections term c c.sectionData with
      | .error e => .error e
      | .ok srs =>
        match gcdfGo term rest with
        | .error e => .error e
        | .ok p => .ok (cr :: p.1, srs ++ p.2)

/-- `get_courses_dfs` from `module/api/parse.py`, applied to the parsed
response body of the network call for the requested department. -/
def get_courses_dfs (term_code : Int) (raw : RawData) :
    Except PyExn (List CourseRow × List SectionRow) :=
  gcdfGo term_code raw.courses

theorem buildSectionRow_id {term : Int} {c : RawCourse} {s : RawSection}
    {sid : String} {row : SectionRow}
    (h : buildSectionRow term c s sid = .ok row) : row.id = sid := by
  simp only [buildSectionRow, Bind.bind, Except.bind] at h
  rcases h1 : conv_instr s.instructor with e | instr
  · simp only [h1] at h
    exact absurd h (by simp)
  simp only [h1] at h
  rcases h2 : convTimeOpt s.start_time with e | st
  · simp only [h2] at h
    exact absurd h (by simp)
  simp only [h2] at h
  rcases h3 : convTimeOpt s.end_time with e | et
  · simp only [h3] at h
    exact absurd h (by simp)
  simp only [h3] at h
  rcases h4 : pyInt (s.spaces_available.getD (JVal.i 0)) with e | sa
  · simp only [h4] at h
    exact absurd h (by simp)
  simp only [h4] at h
  rcases h5 : pyInt (s.number_registered.getD (JVal.i 0)) with e | nr
  · simp only [h5] at h
    exact absurd h (by simp)
  simp only [h5] at h
  rcases h6 : unitsInt c.units with e | u
  · simp only [h6] at h
    exact absurd h (by simp)
  simp only [h6] at h
  rw [show (pure : SectionRow → Except PyExn SectionRow) = Except.ok from rfl] at h
  cases h
  rfl

theorem buildSections_ids {term : Int} {c : RawCourse} {l : List RawSection}
    {rows : List SectionRow} (h : buildSections term c l = .ok rows) :
    rows.map SectionRow.id = (l.filter keepSection).filterMap RawSection.id := by
  induction l generalizing rows with
  | nil =>
    simp only [buildSections] at h
    cases h
    rfl
  | cons s rest ih =>
    rw [buildSections] at h
    by_cases ht : (s.typ == some "Lec") = false
    · rw [if_pos ht] at h
      have hk : keepSection s = false := by
        simp [keepSection, ht]
      simp [hk, ih h]
    · rw [if_neg ht] at h
      have ht2 : (s.typ == some "Lec") = true := by
        cases hb : (s.typ == some "Lec") with
        | false => exact absurd hb ht
        | true => rfl
      rcases hid : s.id with _ | sid
      · simp only [hid] at h
        have hk : keepSection s = false := by
          simp [keepSection, hid]
        simp [hk, ih h]
      · simp only [hid] at h
        rcases hb : buildSectionRow term c s sid with e | row1
        · simp only [hb] at h
          exact absurd h (by simp)
        simp only [hb] at h
        rcases hr : buildSections term c rest with e | rows2
        · simp only [hr] at h
          exact absurd h (by simp)
        simp only [hr] at h
        cases h
        have hk : keepSection s = true := by
          simp [keepSection, ht2, hid]
        rw [List.map_cons, buildSectionRow_id hb, ih hr]
        simp [List.filter_cons, hk, hid]

theorem gcdfGo_ids {term : Int} {l : List RawCourse} {cs : List CourseRow}
    {ss : List SectionRow} (h : gcdfGo term l = .ok (cs, ss)) :
    ss.map SectionRow.id =
      l.flatMap (fun c => (c.sectionData.filter keepSection).filterMap RawSection.id) := by
  induction l generalizing cs ss with
  | nil =>
    simp only [gcdfGo] at h
    cases h
    rfl
  | cons c rest ih =>
    rw [gcdfGo] at h
    rcases hc : buildCourseRow term c with e | cr
    · simp only [hc] at h
      exact absurd h (by simp)
    simp only [hc] at h
    rcases hs : buildSections term c c.sectionData with e | srs
    · simp only [hs] at h
      exact absurd h (by simp)
    simp only [hs] at h
    rcases hg : gcdfGo term rest with e | p
    · simp only [hg] at h
      exact absurd h (by simp)
    simp only [hg] at h
    cases h
    rw [List.flatMap_cons, List.map_append, buildSections_ids hs, ih (by rw [hg])]

/-- C4 as amended: at ingest a raw section record becomes a row of the
sections table if and only if its `type` field is exactly `"Lec"` and it has
a section id — records typed `"Lecture"` are dropped just like
lab/discussion records, and records without an id are skipped; the rows that
are produced are exactly the kept records, in order. -/
theorem C4_section_kept_iff_lec_with_id (term : Int) (raw : RawData)
    (cs : List CourseRow) (ss : List SectionRow)
    (h : get_courses_dfs term raw = .ok (cs, ss)) :
    ss.map SectionRow.id =
      raw.courses.flatMap
        (fun c => (c.sectionData.filter keepSection).filterMap RawSection.id) := by
  exact gcdfGo_ids h

/-- A raw section whose `type` field is the full word `"Lecture"`. -/
def lectureTypedSection : RawSection :=
  { typ := some "Lecture", id := some "40001", instructor := .absent,
    location := some "SGM101", start_time := some "9:00", end_time := some "9:50",
    day := some (.s "MWF"), spaces_available := some (.i 10),
    number_registered := some (.i 0) }

/-- A raw CSCI 104 course carrying the `"Lecture"`-typed section. -/
def rawCourseLectureTyped : RawCourse :=
  { pfx := "CSCI", number := "104", title := "Data Structures",
    description := "Desc", units := "4.0", sequence := none,
    section_title := none, sectionData := [lectureTypedSection] }

/-- A department payload with one course and one `"Lecture"`-typed section. -/
def rawLectureTyped : RawData :=
  { courses := [rawCourseLectureTyped] }

/-- C4 counterexample: a record whose `type` is `"Lecture"` and which has an
id yields *no* section row (the filter keeps only the exact string `"Lec"`),
refuting the claim that `"Lecture"`-typed records become rows. -/
theorem C4_counterexample_lecture_typed_dropped :
    lectureTypedSection.typ = some "Lecture"
    ∧ lectureTypedSection.id.isSome = true
    ∧ get_courses_dfs 20253 rawLectureTyped =
        .ok ([{ code := "CSCI 104", dept := "CSCI", term := 20253,
                title := "Data Structures", description := "Desc",
                units := 4 : CourseRow }], []) := by
  refine ⟨rfl, rfl, rfl⟩

/-- A well-formed `"Lec"` section record. -/
def lecSection : RawSection :=
  { typ := some "Lec", id := some "29903",
    instructor := .single [("first_name", "Carter"), ("last_name", "Slocum")],
    location := some "THH201", start_time := some "12:30", end_time := some "13:50",
    day := some (.s "TH"), spaces_available := some (.i 120),
    number_registered := some (.i 87) }

/-- A discussion-typed section record. -/
def disSection : RawSection :=
  { typ := some "Dis", id := some "29904", instructor := .absent,
    location := some "THH205", start_time := some "14:00", end_time := some "14:50",
    day := some (.s "F"), spaces_available := some (.i 120),
    number_registered := some (.i 87) }

/-- A raw CSCI 104 course with one `"Lec"` and one `"Dis"` section. -/
def rawCourseFixture : RawCourse :=
  { pfx := "CSCI", number := "104", title := "Data Structures",
    description := "Desc", units := "4.0", sequence := none,
    section_title := none, sectionData := [lecSection, disSection] }

/-- A department fixture with one Lecture-kind (`"Lec"`) and one Discussion
section. -/
def rawFixture : RawData :=
  { courses := [rawCourseFixture] }

/-- The single course row of `rawFixture`. -/
def fixtureCourses : List CourseRow :=
  [{ code := "CSCI 104", dept := "CSCI", term := 20253,
     title := "Data Structures", description := "Desc", units := 4 }]

/-- The single section row of `rawFixture` (only the `"Lec"` record). -/
def fixtureSections : List SectionRow :=
  [{ id := "29903", code := "CSCI 104", dept := "CSCI", term := 20253,
     title := "Data Structures", instructor := "Carter Slocum",
     location := "THH201", start_time := "12:30 PM", end_time := "01:50 PM",
     day := "Tue, Thu", spaces_left := 33, number_registered := .i 87,
     spaces_available := .i 120, units := 4 }]

/-- C4 witness: the amended theorem on the fixture with one `"Lec"` and one
`"Dis"` section: exactly one section row results, the `"Lec"` one. -/
theorem C4_section_kept_iff_lec_with_id_witness :
    get_courses_dfs 20253 rawFixture = .ok (fixtureCourses, fixtureSections)
    ∧ fixtureSections.map SectionRow.id = ["29903"] := by
  constructor
  · rfl
  · exact (C4_section_kept_iff_lec_with_id 20253 rawFixture fixtureCourses
      fixtureSections rfl).trans rfl

/-- A `"Lec"` record whose instructor dict is malformed: it lacks the
`first_name`/`last_name` keys the source reads unconditionally. -/
def malformedInstrSection : RawSection :=
  { typ := some "Lec", id := some "29910",
    instructor := .single [("last", "Paolieri")],
    location := some "MHP101", start_time := some "17:00", end_time := some "18:20",
    day := some (.s "MW"), spaces_available := some (.i 70),
    number_registered := some (.i 6) }

/-- A raw CSCI 104 course with one good and one malformed `"Lec"` record. -/
def rawCoursePartiallyMalformed : RawCourse :=
  { pfx := "CSCI", number := "104", title := "Data Structures",
    description := "Desc", units := "4.0", sequence := none,
    section_title := none, sectionData := [lecSection, malformedInstrSection] }

/-- A department payload with one good `"Lec"` record followed by one
malformed one. -/
def rawPartiallyMalformed : RawData :=
  { courses := [rawCoursePartiallyMalformed] }

/-- C7 refuted (code bug): on a department payload whose second section
record is malformed, `get_courses_dfs` propagates the per-record `KeyError`
and aborts the whole department fetch — the good first record is not
ingested, nothing is returned.  There is no per-record try/except in
`get_courses_dfs` (unlike the sibling `fetch_all_sections` in
api_requests.py, which implements exactly the claimed log-and-continue
policy). -/
theorem C7_malformed_record_aborts_fetch :
    get_courses_dfs 20253 rawPartiallyMalformed = .error (.keyErr "first_name") := by
  rfl

/-! ## `difflib.get_close_matches` with `n=1` (used by
`fuzzy_match_dept` in module/util/match.py)

`difflib.SequenceMatcher.ratio()` is `2*M/T` where `T` is the total length
of the two sequences and `M` the total size of the matching blocks found by
recursively taking a longest matching block (ties resolved towards the block
starting earliest in the first sequence, then earliest in the second — the
documented behaviour for short inputs, where the autojunk heuristic, which
only triggers on second sequences of 200 or more characters, is inert).
`get_close_matches(word, possibilities, n=1, cutoff=0.5)` keeps the ratios
at or above the cutoff (its two quick-ratio pre-filters are upper bounds of
the ratio, so they drop nothing else) and returns the largest surviving
`(ratio, candidate)` pair — ties between distinct candidates are broken by
string comparison, so the result does not depend on the iteration order of
the `set` of possibilities.  Ratios are modelled as exact rationals; at
these string lengths the float ratios difflib computes order identically. -/

/-- Length of the common prefix run of two suffixes. -/
def matchLen : List Char → List Char → Nat
  | a :: as, b :: bs => if a = b then matchLen as bs + 1 else 0
  | _, _ => 0

/-- All blocks `(i, j, run length at (i, j))` of a pair of sequences, in
ascending `(i, j)` order. -/
def flmCandidates (a b : List Char) : List (Nat × Nat × Nat) :=
  (List.range (a.length + 1)).flatMap (fun i =>
    (List.range (b.length + 1)).map (fun j => (i, j, matchLen (a.drop i) (b.drop j))))

/-- Keep the incumbent unless the challenger's run is strictly longer: over
an ascending scan this selects the longest block, earliest in `a` then in
`b`, exactly `find_longest_match`'s documented tie-breaking. -/
def pickStep (best c : Nat × Nat × Nat) : Nat × Nat × Nat :=
  if best.2.2 < c.2.2 then c else best

/-- `find_longest_match` over whole sequences: the longest matching block,
`(0, 0, 0)` when nothing matches. -/
def findLongestMatch (a b : List Char) : Nat × Nat × Nat :=
  (flmCandidates a b).foldl pickStep (0, 0, 0)

theorem matchLen_le (xs : List Char) : ∀ ys : List Char,
    matchLen xs ys ≤ min xs.length ys.length := by
  induction xs with
  | nil => intro ys; simp [matchLen]
  | cons x xs2 ih =>
    intro ys
    cases ys with
    | nil => simp [matchLen]
    | cons y ys2 =>
      rw [matchLen]
      by_cases hxy : x = y
      · simp only [hxy, if_true]
        have := ih ys2
        simp only [List.length_cons]
        omega
      · simp [hxy]

theorem matchLen_self (xs : List Char) : matchLen xs xs = xs.length := by
  induction xs with
  | nil => rfl
  | cons x xs2 ih => simp [matchLen, ih]

theorem matchLen_take (k : Nat) : ∀ xs ys : List Char,
    k ≤ matchLen xs ys → xs.take k = ys.take k := by
  induction k with
  | zero => intro xs ys _; rfl
  | succ k2 ih =>
    intro xs ys hk
    cases xs with
    | nil => simp [matchLen] at hk
    | cons x xs2 =>
      cases ys with
      | nil => simp [matchLen] at hk
      | cons y ys2 =>
        rw [matchLen] at hk
        by_cases hxy : x = y
        · simp only [hxy, if_true] at hk
          rw [List.take_succ_cons, List.take_succ_cons, hxy,
            ih xs2 ys2 (by omega)]
        · simp [hxy] at hk

theorem mem_flmCandidates {a b : List Char} {c : Nat × Nat × Nat}
    (h : c ∈ flmCandidates a b) :
    c.1 ≤ a.length ∧ c.2.1 ≤ b.length
      ∧ c.2.2 = matchLen (a.drop c.1) (b.drop c.2.1) := by
  simp only [flmCandidates, List.mem_flatMap, List.mem_map, List.mem_range] at h
  obtain ⟨i, hi, j, hj, hc⟩ := h
  rw [← hc]
  exact ⟨by show i ≤ a.length; omega, by show j ≤ b.length; omega, rfl⟩

theorem flmCandidates_mem {a b : List Char} {i j : Nat}
    (hi : i ≤ a.length) (hj : j ≤ b.length) :
    (i, j, matchLen (a.drop i) (b.drop j)) ∈ flmCandidates a b := by
  simp only [flmCandidates, List.mem_flatMap, List.mem_map, List.mem_range]
  exact ⟨i, by omega, j, by omega, rfl⟩

theorem foldlPick_init_le (l : List (Nat × Nat × Nat)) :
    ∀ init : Nat × Nat × Nat, init.2.2 ≤ (l.foldl pickStep init).2.2 := by
  induction l with
  | nil => intro init; exact le_refl _
  | cons c rest ih =>
    intro init
    rw [List.foldl_cons]
    have hstep : init.2.2 ≤ (pickStep init c).2.2 := by
      rw [pickStep]
      by_cases h : init.2.2 < c.2.2
      · rw [if_pos h]
        omega
      · rw [if_neg h]
    exact le_trans hstep (ih (pickStep init c))

theorem foldlPick_elem_le (l : List (Nat × Nat × Nat)) :
    ∀ (init : Nat × Nat × Nat), ∀ c ∈ l, c.2.2 ≤ (l.foldl pickStep init).2.2 := by
  induction l with
  | nil => intro _ c hc; exact absurd hc (List.not_mem_nil c)
  | cons d rest ih =>
    intro init c hc
    rw [List.foldl_cons]
    rcases List.mem_cons.mp hc with rfl | hc2
    · have hstep : c.2.2 ≤ (pickStep init c).2.2 := by
        rw [pickStep]
        by_cases h : init.2.2 < c.2.2
        · rw [if_pos h]
        · rw [if_neg h]
          omega
      exact le_trans hstep (foldlPick_init_le rest _)
    · exact ih _ c hc2

theorem foldlPick_mem (l : List (Nat × Nat × Nat)) :
    ∀ init : Nat × Nat × Nat,
      l.foldl pickStep init = init ∨ l.foldl pickStep init ∈ l := by
  induction l with
  | nil => intro init; exact Or.inl rfl
  | cons d rest ih =>
    intro init
    rw [List.foldl_cons]
    by_cases h : init.2.2 < d.2.2
    · have hs : pickStep init d = d := by
        rw [pickStep, if_pos h]
      rw [hs]
      rcases ih d with h2 | h2
      · refine Or.inr ?_
        rw [h2]
        exact List.mem_cons_self d rest
      · exact Or.inr (List.mem_cons_of_mem d h2)
    · have hs : pickStep init d = init := by
        rw [pickStep, if_neg h]
      rw [hs]
      rcases ih init with h2 | h2
      · exact Or.inl h2
      · exact Or.inr (List.mem_cons_of_mem d h2)

theorem foldlPick_keep (l : List (Nat × Nat × Nat)) :
    ∀ b : Nat × Nat × Nat, (∀ c ∈ l, c.2.2 ≤ b.2.2) → l.foldl pickStep b = b := by
  induction l with
  | nil => intro b _; rfl
  | cons d rest ih =>
    intro b h
    rw [List.foldl_cons]
    have hd : d.2.2 ≤ b.2.2 := h d (List.mem_cons_self d rest)
    have hs : pickStep b d = b := by
      rw [pickStep, if_neg (by omega)]
    rw [hs]
    exact ih b (fun c hc => h c (List.mem_cons_of_mem d hc))

theorem flm_bounds {a b : List Char} {i j k : Nat}
    (h : findLongestMatch a b = (i, j, k)) :
    i + k ≤ a.length ∧ j + k ≤ b.length
      ∧ k ≤ matchLen (a.drop i) (b.drop j) := by
  rw [findLongestMatch] at h
  rcases foldlPick_mem (flmCandidates a b) (0, 0, 0) with h2 | h2
  · rw [h2] at h
    cases h
    exact ⟨Nat.zero_le _, Nat.zero_le _, Nat.zero_le _⟩
  · rw [h] at h2
    obtain ⟨h1, h2b, h3⟩ := mem_flmCandidates h2
    have h1' : i ≤ a.length := h1
    have h2b' : j ≤ b.length := h2b
    have h3' : k = matchLen (a.drop i) (b.drop j) := h3
    have hle := matchLen_le (a.drop i) (b.drop j)
    rw [List.length_drop, List.length_drop] at hle
    refine ⟨by omega, by omega, by omega⟩

theorem flm_max {a b : List Char} {i j k : Nat}
    (h : findLongestMatch a b = (i, j, k)) :
    ∀ x y : Nat, matchLen (a.drop x) (b.drop y) ≤ k := by
  intro x y
  by_cases hx : x ≤ a.length
  · by_cases hy : y ≤ b.length
    · have hmem := flmCandidates_mem (a := a) (b := b) hx hy
      have hel := foldlPick_elem_le (flmCandidates a b) (0, 0, 0) _ hmem
      rw [findLongestMatch] at h
      rw [h] at hel
      exact hel
    · have hnil : b.drop y = [] := List.drop_eq_nil_of_le (by omega)
      rw [hnil]
      cases a.drop x <;> simp [matchLen]
  · have hnil : a.drop x = [] := List.drop_eq_nil_of_le (by omega)
    rw [hnil]
    simp [matchLen]

theorem matchTotal_dec1 {la lb i j k : Nat} (h1 : i + k ≤ la)
    (h2 : j + k ≤ lb) (hk : ¬ k = 0) : min i la + min j lb < la + lb := by
  omega

theorem matchTotal_dec2 {la lb i j k : Nat} (h1 : i + k ≤ la)
    (h2 : j + k ≤ lb) (hk : ¬ k = 0) :
    la - (i + k) + (lb - (j + k)) < la + lb := by
  omega

set_option linter.unusedVariables false in
/-- Total size `M` of the matching blocks of `get_matching_blocks`: take the
longest block, recurse on the parts left of it and right of it.  (When the
chosen block touches an edge, the source skips the corresponding subproblem;
here the subproblem is an empty-against-something pair whose `M` is 0, which
is the same total.) -/
def matchTotal (a b : List Char) : Nat :=
  if hk : (findLongestMatch a b).2.2 = 0 then 0
  else
    matchTotal (a.take (findLongestMatch a b).1)
        (b.take (findLongestMatch a b).2.1) +
      (findLongestMatch a b).2.2 +
      matchTotal (a.drop ((findLongestMatch a b).1 + (findLongestMatch a b).2.2))
        (b.drop ((findLongestMatch a b).2.1 + (findLongestMatch a b).2.2))
termination_by a.length + b.length
decreasing_by
  · obtain ⟨h1, h2, _⟩ := flm_bounds (a := a) (b := b) rfl
    simp only [List.length_take]
    exact matchTotal_dec1 h1 h2 hk
  · obtain ⟨h1, h2, _⟩ := flm_bounds (a := a) (b := b) rfl
    simp only [List.length_drop]
    exact matchTotal_dec2 h1 h2 hk

theorem matchTotal_eq {a b : List Char} {i j k : Nat}
    (h : findLongestMatch a b = (i, j, k)) :
    matchTotal a b = if k = 0 then 0 else
      matchTotal (a.take i) (b.take j) + k +
        matchTotal (a.drop (i + k)) (b.drop (j + k)) := by
  rw [matchTotal]
  simp only [h, dite_eq_ite]

theorem matchTotal_nil : matchTotal [] [] = 0 := by
  rw [matchTotal_eq (show findLongestMatch [] [] = (0, 0, 0) from rfl)]
  rfl

theorem matchTotal_le (N : Nat) : ∀ a b : List Char, a.length + b.length ≤ N →
    matchTotal a b ≤ min a.length b.length := by
  induction N with
  | zero =>
    intro a b hab
    have ha : a = [] := List.length_eq_zero.mp (by omega)
    have hb : b = [] := List.length_eq_zero.mp (by omega)
    subst ha
    subst hb
    rw [matchTotal_nil]
    exact Nat.zero_le _
  | succ N ih =>
    intro a b hab
    rcases hf : findLongestMatch a b with ⟨i, j, k⟩
    rw [matchTotal_eq hf]
    by_cases hk : k = 0
    · simp [hk]
    · rw [if_neg hk]
      obtain ⟨h1, h2, _⟩ := flm_bounds hf
      have m1 := ih (a.take i) (b.take j)
        (by simp only [List.length_take]; omega)
      have m2 := ih (a.drop (i + k)) (b.drop (j + k))
        (by simp only [List.length_drop]; omega)
      simp only [List.length_take, List.length_drop] at m1 m2
      omega

theorem flm_self (a : List Char) : findLongestMatch a a = (0, 0, a.length) := by
  rcases hf : findLongestMatch a a with ⟨i, j, k⟩
  obtain ⟨h1, h2, h3⟩ := flm_bounds hf
  have hcand := flmCandidates_mem (a := a) (b := a) (Nat.zero_le _) (Nat.zero_le _)
  rw [List.drop_zero, matchLen_self] at hcand
  have hge : a.length ≤ k := by
    have hel := foldlPick_elem_le (flmCandidates a a) (0, 0, 0) _ hcand
    have hf2 : (flmCandidates a a).foldl pickStep (0, 0, 0) = (i, j, k) := hf
    rw [hf2] at hel
    exact hel
  have hm := matchLen_le (a.drop i) (a.drop j)
  rw [List.length_drop, List.length_drop] at hm
  have hi0 : i = 0 := by omega
  have hj0 : j = 0 := by omega
  have hk : k = a.length := by omega
  rw [hi0, hj0, hk]

theorem matchTotal_self (a : List Char) : matchTotal a a = a.length := by
  rcases ha : a with _ | ⟨c, rest⟩
  · exact matchTotal_nil
  · rw [← ha, matchTotal_eq (flm_self (a := a))]
    have hlen : a.length ≠ 0 := by
      rw [ha]
      simp
    rw [if_neg hlen]
    simp only [List.take_zero, Nat.zero_add, List.drop_length, matchTotal_nil]
    omega

theorem matchTotal_full (N : Nat) : ∀ a b : List Char, a.length + b.length ≤ N →
    matchTotal a b = a.length → matchTotal a b = b.length → a = b := by
  induction N with
  | zero =>
    intro a b hab hA hB
    have ha : a = [] := List.length_eq_zero.mp (by omega)
    have hb : b = [] := List.length_eq_zero.mp (by omega)
    rw [ha, hb]
  | succ N ih =>
    intro a b hab hA hB
    rcases hf : findLongestMatch a b with ⟨i, j, k⟩
    obtain ⟨hb1, hb2, hb3⟩ := flm_bounds hf
    rw [matchTotal_eq hf] at hA hB
    by_cases hk : k = 0
    · rw [if_pos hk] at hA hB
      have ha : a = [] := List.length_eq_zero.mp hA.symm
      have hb : b = [] := List.length_eq_zero.mp hB.symm
      rw [ha, hb]
    · rw [if_neg hk] at hA hB
      have lt1 : (a.take i).length = i := by
        rw [List.length_take]
        omega
      have lt2 : (b.take j).length = j := by
        rw [List.length_take]
        omega
      have ld1 : (a.drop (i + k)).length = a.length - (i + k) :=
        List.length_drop _ _
      have ld2 : (b.drop (j + k)).length = b.length - (j + k) :=
        List.length_drop _ _
      have hm1 := matchTotal_le N (a.take i) (b.take j)
        (by rw [lt1, lt2]; omega)
      have hm2 := matchTotal_le N (a.drop (i + k)) (b.drop (j + k))
        (by rw [ld1, ld2]; omega)
      rw [lt1, lt2] at hm1
      rw [ld1, ld2] at hm2
      have hM1a : matchTotal (a.take i) (b.take j) = i := by omega
      have hM1b : matchTotal (a.take i) (b.take j) = j := by omega
      have hM2a : matchTotal (a.drop (i + k)) (b.drop (j + k))
          = a.length - (i + k) := by omega
      have hM2b : matchTotal (a.drop (i + k)) (b.drop (j + k))
          = b.length - (j + k) := by omega
      have e1 : a.take i = b.take j :=
        ih _ _ (by rw [lt1, lt2]; omega) (by rw [lt1]; exact hM1a)
          (by rw [lt2]; exact hM1b)
      have e2 : a.drop (i + k) = b.drop (j + k) :=
        ih _ _ (by rw [ld1, ld2]; omega) (by rw [ld1]; exact hM2a)
          (by rw [ld2]; exact hM2b)
      have e3 : (a.drop i).take k = (b.drop j).take k := matchLen_take k _ _ hb3
      have ra : a = a.take i ++ ((a.drop i).take k ++ a.drop (i + k)) := by
        rw [← List.drop_drop, List.take_append_drop, List.take_append_drop]
      have rb : b = b.take j ++ ((b.drop j).take k ++ b.drop (j + k)) := by
        rw [← List.drop_drop, List.take_append_drop, List.take_append_drop]
      have hmid : a.take i ++ ((a.drop i).take k ++ a.drop (i + k))
          = b.take j ++ ((b.drop j).take k ++ b.drop (j + k)) := by
        rw [e1, e3, e2]
      exact ra.trans (hmid.trans rb.symm)

/-- `SequenceMatcher.ratio()`: `2*M/T`, defined as 1 on two empty
sequences (difflib's `_calculate_ratio`). -/
def ratioOf (a b : List Char) : ℚ :=
  if a.length + b.length = 0 then 1
  else 2 * (matchTotal a b : ℚ) / ((a.length + b.length : Nat) : ℚ)

theorem ratioOf_self (a : List Char) : ratioOf a a = 1 := by
  rw [ratioOf]
  by_cases h : a.length + a.length = 0
  · rw [if_pos h]
  · rw [if_neg h, matchTotal_self]
    have hne : ((a.length : ℚ) + (a.length : ℚ)) ≠ 0 := by
      have h2 : ((a.length + a.length : Nat) : ℚ) ≠ 0 := by exact_mod_cast h
      push_cast at h2
      exact h2
    push_cast
    rw [div_eq_one_iff_eq hne]
    ring

theorem ratioOf_le_one (a b : List Char) : ratioOf a b ≤ 1 := by
  rw [ratioOf]
  by_cases h : a.length + b.length = 0
  · rw [if_pos h]
  · rw [if_neg h]
    have hM := matchTotal_le (a.length + b.length) a b (le_refl _)
    have h2 : 2 * matchTotal a b ≤ a.length + b.length := by omega
    have hpos : (0 : ℚ) < ((a.length + b.length : Nat) : ℚ) := by
      exact_mod_cast Nat.pos_of_ne_zero h
    rw [div_le_one hpos]
    exact_mod_cast h2

theorem ratioOf_eq_one {a b : List Char} (h : ratioOf a b = 1) : a = b := by
  rw [ratioOf] at h
  by_cases h0 : a.length + b.length = 0
  · have ha : a = [] := List.length_eq_zero.mp (by omega)
    have hb : b = [] := List.length_eq_zero.mp (by omega)
    rw [ha, hb]
  · rw [if_neg h0] at h
    have hne : ((a.length + b.length : Nat) : ℚ) ≠ 0 := by
      exact_mod_cast h0
    rw [div_eq_one_iff_eq hne] at h
    have h2 : 2 * matchTotal a b = a.length + b.length := by exact_mod_cast h
    have hle := matchTotal_le (a.length + b.length) a b (le_refl _)
    exact matchTotal_full (a.length + b.length) a b (le_refl _) (by omega) (by omega)

theorem ratioOf_lt_one {a b : List Char} (h : a ≠ b) : ratioOf a b < 1 :=
  lt_of_le_of_ne (ratioOf_le_one a b) (fun he => h (ratioOf_eq_one he))

/-- Python string `<` (lexicographic by code point), used to break ratio
ties among the `(ratio, candidate)` pairs `heapq.nlargest` compares. -/
def lexLt : List Char → List Char → Bool
  | [], [] => false
  | [], _ :: _ => true
  | _ :: _, [] => false
  | x :: xs, y :: ys => if x = y then lexLt xs ys else decide (x < y)

theorem lexLt_irrefl (l : List Char) : lexLt l l = false := by
  induction l with
  | nil => rfl
  | cons x xs ih => simp [lexLt, ih]

/-- One pass of `get_close_matches(word, possibilities, n=1, cutoff=0.5)`:
drop candidates whose ratio is below the cutoff (the `real_quick_ratio`/
`quick_ratio` pre-filters are upper bounds of the ratio, so they are
equivalent to this filter), and keep the largest `(ratio, candidate)` pair
in the tuple order `nlargest` uses. -/
def bestMatch (w : List Char) : List (List Char) → Option (List Char) → Option (List Char)
  | [], cur => cur
  | x :: rest, cur =>
    if ratioOf x w < 1 / 2 then bestMatch w rest cur
    else
      match cur with
      | none => bestMatch w rest (some x)
      | some c =>
        if ratioOf c w < ratioOf x w ∨ (ratioOf x w = ratioOf c w ∧ lexLt c x = true)
        then bestMatch w rest (some x)
        else bestMatch w rest (some c)

/-- `get_close_matches(w, possibilities, n=1, cutoff=0.5)` reduced to its
only element (`none` when the returned list is empty). -/
def get_close_match1 (w : List Char) (opts : List (List Char)) : Option (List Char) :=
  bestMatch w opts none

theorem bestMatch_none (w : List Char) :
    ∀ l : List (List Char), (∀ x ∈ l, ratioOf x w < 1 / 2) →
      bestMatch w l none = none := by
  intro l
  induction l with
  | nil => intro _; rfl
  | cons x rest ih =>
    intro h
    rw [bestMatch, if_pos (h x (List.mem_cons_self x rest))]
    exact ih (fun y hy => h y (List.mem_cons_of_mem x hy))

theorem bestMatch_some_of_some (w : List Char) :
    ∀ (l : List (List Char)) (c : List Char),
      ∃ m, bestMatch w l (some c) = some m := by
  intro l
  induction l with
  | nil => intro c; exact ⟨c, rfl⟩
  | cons x rest ih =>
    intro c
    rw [bestMatch]
    by_cases hx : ratioOf x w < 1 / 2
    · rw [if_pos hx]
      exact ih c
    · rw [if_neg hx]
      by_cases hb : ratioOf c w < ratioOf x w ∨
          (ratioOf x w = ratioOf c w ∧ lexLt c x = true)
      · rw [if_pos hb]
        exact ih x
      · rw [if_neg hb]
        exact ih c

theorem bestMatch_some_of_hit (w : List Char) :
    ∀ (l : List (List Char)) (x : List Char), x ∈ l → ¬ ratioOf x w < 1 / 2 →
      ∃ m, bestMatch w l none = some m := by
  intro l
  induction l with
  | nil => intro x hx _; exact absurd hx (List.not_mem_nil x)
  | cons y rest ih =>
    intro x hx hr
    rw [bestMatch]
    by_cases hy : ratioOf y w < 1 / 2
    · rw [if_pos hy]
      rcases List.mem_cons.mp hx with rfl | hx2
      · exact absurd hy hr
      · exact ih x hx2 hr
    · rw [if_neg hy]
      exact bestMatch_some_of_some w rest y

/-- `get_close_match1` returns nothing exactly when every candidate's ratio
is below the 0.5 cutoff. -/
theorem get_close_match1_none_iff (w : List Char) (opts : List (List Char)) :
    get_close_match1 w opts = none ↔ ∀ x ∈ opts, ratioOf x w < 1 / 2 := by
  constructor
  · intro h x hx
    by_contra hr
    obtain ⟨m, hm⟩ := bestMatch_some_of_hit w opts x hx hr
    rw [get_close_match1, hm] at h
    exact absurd h (by simp)
  · exact bestMatch_none w opts

theorem bestMatch_mem (w : List Char) :
    ∀ (l : List (List Char)) (cur : Option (List Char)) (m : List Char),
      bestMatch w l cur = some m →
      cur = some m ∨ (m ∈ l ∧ 1 / 2 ≤ ratioOf m w) := by
  intro l
  induction l with
  | nil => intro cur m h; exact Or.inl h
  | cons x rest ih =>
    intro cur m h
    rcases cur with _ | c
    · rw [bestMatch] at h
      by_cases hx : ratioOf x w < 1 / 2
      · rw [if_pos hx] at h
        rcases ih none m h with h2 | ⟨h2, h3⟩
        · exact absurd h2 (by simp)
        · exact Or.inr ⟨List.mem_cons_of_mem x h2, h3⟩
      · rw [if_neg hx] at h
        rcases ih (some x) m h with h2 | ⟨h2, h3⟩
        · rcases Option.some.inj h2 with rfl
          exact Or.inr ⟨List.mem_cons_self x rest, le_of_not_lt hx⟩
        · exact Or.inr ⟨List.mem_cons_of_mem x h2, h3⟩
    · rw [bestMatch] at h
      by_cases hx : ratioOf x w < 1 / 2
      · rw [if_pos hx] at h
        rcases ih (some c) m h with h2 | ⟨h2, h3⟩
        · exact Or.inl h2
        · exact Or.inr ⟨List.mem_cons_of_mem x h2, h3⟩
      · rw [if_neg hx] at h
        by_cases hb : ratioOf c w < ratioOf x w ∨
            (ratioOf x w = ratioOf c w ∧ lexLt c x = true)
        · rw [if_pos hb] at h
          rcases ih (some x) m h with h2 | ⟨h2, h3⟩
          · rcases Option.some.inj h2 with rfl
            exact Or.inr ⟨List.mem_cons_self x rest, le_of_not_lt hx⟩
          · exact Or.inr ⟨List.mem_cons_of_mem x h2, h3⟩
        · rw [if_neg hb] at h
          rcases ih (some c) m h with h2 | ⟨h2, h3⟩
          · exact Or.inl h2
          · exact Or.inr ⟨List.mem_cons_of_mem x h2, h3⟩

theorem bestMatch_max (w : List Char) :
    ∀ (l : List (List Char)) (cur : Option (List Char)) (m : List Char),
      bestMatch w l cur = some m →
      (∀ x ∈ l, ratioOf x w < 1 / 2 ∨ ratioOf x w ≤ ratioOf m w)
      ∧ (∀ c, cur = some c → ratioOf c w ≤ ratioOf m w) := by
  intro l
  induction l with
  | nil =>
    intro cur m h
    refine ⟨fun x hx => absurd hx (List.not_mem_nil x), fun c hc => ?_⟩
    rw [hc] at h
    rcases Option.some.inj h with rfl
    exact le_refl _
  | cons x rest ih =>
    intro cur m h
    rcases cur with _ | c
    · rw [bestMatch] at h
      by_cases hx : ratioOf x w < 1 / 2
      · rw [if_pos hx] at h
        obtain ⟨h1, _⟩ := ih none m h
        refine ⟨fun y hy => ?_, fun c hc => by cases hc⟩
        rcases List.mem_cons.mp hy with rfl | hy2
        · exact Or.inl hx
        · exact h1 y hy2
      · rw [if_neg hx] at h
        obtain ⟨h1, h2⟩ := ih (some x) m h
        have hxm : ratioOf x w ≤ ratioOf m w := h2 x rfl
        refine ⟨fun y hy => ?_, fun c hc => by cases hc⟩
        rcases List.mem_cons.mp hy with rfl | hy2
        · exact Or.inr hxm
        · exact h1 y hy2
    · rw [bestMatch] at h
      by_cases hx : ratioOf x w < 1 / 2
      · rw [if_pos hx] at h
        obtain ⟨h1, h2⟩ := ih (some c) m h
        refine ⟨fun y hy => ?_, fun d hd => ?_⟩
        · rcases List.mem_cons.mp hy with rfl | hy2
          · exact Or.inl hx
          · exact h1 y hy2
        · rcases Option.some.inj hd with rfl
          exact h2 _ rfl
      · rw [if_neg hx] at h
        by_cases hb : ratioOf c w < ratioOf x w ∨
            (ratioOf x w = ratioOf c w ∧ lexLt c x = true)
        · rw [if_pos hb] at h
          obtain ⟨h1, h2⟩ := ih (some x) m h
          have hxm : ratioOf x w ≤ ratioOf m w := h2 x rfl
          have hcx : ratioOf c w ≤ ratioOf x w := by
            rcases hb with hb | ⟨hb, _⟩
            · exact le_of_lt hb
            · exact le_of_eq hb.symm
          refine ⟨fun y hy => ?_, fun d hd => ?_⟩
          · rcases List.mem_cons.mp hy with rfl | hy2
            · exact Or.inr hxm
            · exact h1 y hy2
          · rcases Option.some.inj hd with rfl
            exact le_trans hcx hxm
        · rw [if_neg hb] at h
          obtain ⟨h1, h2⟩ := ih (some c) m h
          have hcm : ratioOf c w ≤ ratioOf m w := h2 c rfl
          have hxc : ratioOf x w ≤ ratioOf c w := by
            rcases not_or.mp hb with ⟨hb1, _⟩
            exact le_of_not_lt hb1
          refine ⟨fun y hy => ?_, fun d hd => ?_⟩
          · rcases List.mem_cons.mp hy with rfl | hy2
            · exact Or.inr (le_trans hxc hcm)
            · exact h1 y hy2
          · rcases Option.some.inj hd with rfl
            exact hcm

theorem bestMatch_keeps (w : List Char) :
    ∀ l : List (List Char), (∀ x ∈ l, x = w ∨ ratioOf x w < ratioOf w w) →
      bestMatch w l (some w) = some w := by
  intro l
  induction l with
  | nil => intro _; rfl
  | cons x rest ih =>
    intro h
    have hrest : ∀ y ∈ rest, y = w ∨ ratioOf y w < ratioOf w w :=
      fun y hy => h y (List.mem_cons_of_mem x hy)
    rw [bestMatch]
    by_cases hx : ratioOf x w < 1 / 2
    · rw [if_pos hx]
      exact ih hrest
    · rw [if_neg hx]
      have hnb : ¬ (ratioOf w w < ratioOf x w ∨
          (ratioOf x w = ratioOf w w ∧ lexLt w x = true)) := by
        rcases h x (List.mem_cons_self x rest) with rfl | hlt
        · simp [lexLt_irrefl]
        · rintro (h2 | ⟨h2, _⟩)
          · exact absurd h2 (not_lt.mpr (le_of_lt hlt))
          · exact absurd h2 (ne_of_lt hlt)
      rw [if_neg hnb]
      exact ih hrest

theorem bestMatch_exact (w : List Char) :
    ∀ l : List (List Char), w ∈ l →
      (∀ x ∈ l, x = w ∨ ratioOf x w < ratioOf w w) →
      ∀ cur : Option (List Char),
        (cur = none ∨ cur = some w ∨
          ∃ c, cur = some c ∧ ratioOf c w < ratioOf w w) →
        bestMatch w l cur = some w := by
  intro l
  induction l with
  | nil => intro hw _ _ _; exact absurd hw (List.not_mem_nil w)
  | cons x rest ih =>
    intro hw h cur hcur
    have hrest : ∀ y ∈ rest, y = w ∨ ratioOf y w < ratioOf w w :=
      fun y hy => h y (List.mem_cons_of_mem x hy)
    have hww : ratioOf w w = 1 := ratioOf_self w
    have hwcut : ¬ ratioOf w w < 1 / 2 := by
      rw [hww]
      norm_num
    have hxcase := h x (List.mem_cons_self x rest)
    have hnotbetter : ratioOf x w < ratioOf w w →
        ¬ (ratioOf w w < ratioOf x w ∨
          (ratioOf x w = ratioOf w w ∧ lexLt w x = true)) := by
      intro hxlt
      rintro (h2 | ⟨h2, _⟩)
      · exact absurd h2 (not_lt.mpr (le_of_lt hxlt))
      · exact absurd h2 (ne_of_lt hxlt)
    rcases hcur with rfl | rfl | ⟨c, rfl, hc⟩
    · rcases hxcase with rfl | hxlt
      · rw [bestMatch, if_neg hwcut]
        exact bestMatch_keeps _ rest hrest
      · have hwrest : w ∈ rest := by
          rcases List.mem_cons.mp hw with h2 | h2
          · subst h2
            exact absurd hxlt (lt_irrefl _)
          · exact h2
        rw [bestMatch]
        by_cases hx : ratioOf x w < 1 / 2
        · rw [if_pos hx]
          exact ih hwrest hrest none (Or.inl rfl)
        · rw [if_neg hx]
          exact ih hwrest hrest (some x) (Or.inr (Or.inr ⟨x, rfl, hxlt⟩))
    · rcases hxcase with rfl | hxlt
      · rw [bestMatch, if_neg hwcut, if_neg (by simp [lexLt_irrefl])]
        exact bestMatch_keeps _ rest hrest
      · have hwrest : w ∈ rest := by
          rcases List.mem_cons.mp hw with h2 | h2
          · subst h2
            exact absurd hxlt (lt_irrefl _)
          · exact h2
        rw [bestMatch]
        by_cases hx : ratioOf x w < 1 / 2
        · rw [if_pos hx]
          exact ih hwrest hrest (some w) (Or.inr (Or.inl rfl))
        · rw [if_neg hx, if_neg (hnotbetter hxlt)]
          exact ih hwrest hrest (some w) (Or.inr (Or.inl rfl))
    · rcases hxcase with rfl | hxlt
      · rw [bestMatch, if_neg hwcut, if_pos (Or.inl hc)]
        exact bestMatch_keeps _ rest hrest
      · have hwrest : w ∈ rest := by
          rcases List.mem_cons.mp hw with h2 | h2
          · subst h2
            exact absurd hxlt (lt_irrefl _)
          · exact h2
        rw [bestMatch]
        by_cases hx : ratioOf x w < 1 / 2
        · rw [if_pos hx]
          exact ih hwrest hrest (some c) (Or.inr (Or.inr ⟨c, rfl, hc⟩))
        · rw [if_neg hx]
          by_cases hb : ratioOf c w < ratioOf x w ∨
              (ratioOf x w = ratioOf c w ∧ lexLt c x = true)
          · rw [if_pos hb]
            exact ih hwrest hrest (some x) (Or.inr (Or.inr ⟨x, rfl, hxlt⟩))
          · rw [if_neg hb]
            exact ih hwrest hrest (some c) (Or.inr (Or.inr ⟨c, rfl, hc⟩))

/-- Python `str.lower()`. -/
def toLowerL (s : List Char) : List Char := s.map Char.toLower

/-- Python `str.upper()`. -/
def toUpperL (s : List Char) : List Char := s.map Char.toUpper

/-- `fuzzy_match_dept` from `module/util/match.py`, parametrised by the
department directory `get_depts(code_is_key=False)` delivers (a list of
`(name, code)` pairs standing for the Python dict, names as keys):
strip and lower the query, run `get_close_matches(..., n=1, cutoff=0.5)`
against `set(codes + names)` (maximising over a list with duplicates equals
maximising over the deduplicated set), and translate the winning option to
an upper-cased code — directly when it is a code, through the dict lookup
when it is a name; the dangling final case is the source's implicit
`return None`. -/
def fuzzy_match_dept (dept_dict : List (List Char × List Char))
    (dept : List Char) : Option (List Char) :=
  match get_close_match1 (toLowerL (stripL dept))
      (dept_dict.map Prod.snd ++ dept_dict.map Prod.fst) with
  | none => none
  | some m =>
    if m ∈ dept_dict.map Prod.snd then some (toUpperL m)
    else if m ∈ dept_dict.map Prod.fst then
      match dept_dict.find? (fun p => p.1 == m) with
      | some p => some (toUpperL p.2)
      | none => none
    else none

/-- C5: department resolution behaves as claimed.  (1) an exact
(case-insensitive, stripped) hit on a directory code returns that canonical
code — the code has similarity ratio 1, strictly above every other
candidate, so the single-phase `get_close_matches` call returns it;
(2) an exact hit on a directory name returns that name's code;
(3) the resolution yields no match exactly when every candidate's
similarity ratio is below the 0.5 threshold (`DepartmentNotFound` at the
callers); (4) an accepted candidate lies in the candidate pool, has ratio
at least 0.5, and no candidate has a larger ratio. -/
theorem C5_department_resolution (dd : List (List Char × List Char))
    (raw : List Char) :
    (toLowerL (stripL raw) ∈ dd.map Prod.snd →
      fuzzy_match_dept dd raw = some (toUpperL (toLowerL (stripL raw))))
    ∧ (toLowerL (stripL raw) ∉ dd.map Prod.snd →
        ∀ p, dd.find? (fun q => q.1 == toLowerL (stripL raw)) = some p →
          fuzzy_match_dept dd raw = some (toUpperL p.2))
    ∧ (fuzzy_match_dept dd raw = none ↔
        ∀ x ∈ dd.map Prod.snd ++ dd.map Prod.fst,
          ratioOf x (toLowerL (stripL raw)) < 1 / 2)
    ∧ (∀ m, get_close_match1 (toLowerL (stripL raw))
          (dd.map Prod.snd ++ dd.map Prod.fst) = some m →
        m ∈ dd.map Prod.snd ++ dd.map Prod.fst
        ∧ 1 / 2 ≤ ratioOf m (toLowerL (stripL raw))
        ∧ ∀ x ∈ dd.map Prod.snd ++ dd.map Prod.fst,
            ratioOf x (toLowerL (stripL raw))
              ≤ ratioOf m (toLowerL (stripL raw))) := by
  rw [fuzzy_match_dept]
  generalize toLowerL (stripL raw) = w
  have hall : ∀ x ∈ dd.map Prod.snd ++ dd.map Prod.fst,
      x = w ∨ ratioOf x w < ratioOf w w := by
    intro x _
    by_cases hxw : x = w
    · exact Or.inl hxw
    · right
      rw [ratioOf_self]
      exact ratioOf_lt_one hxw
  refine ⟨?_, ?_, ?_, ?_⟩
  · intro hcodes
    have hgcm : get_close_match1 w (dd.map Prod.snd ++ dd.map Prod.fst) = some w :=
      bestMatch_exact w _ (List.mem_append.mpr (Or.inl hcodes)) hall none (Or.inl rfl)
    simp only [hgcm]
    rw [if_pos hcodes]
  · intro hncodes p hfind
    have hp_mem : p ∈ dd := List.mem_of_find?_eq_some hfind
    have hp_eq : p.1 = w := by
      have := List.find?_some hfind
      simpa using this
    have hnames : w ∈ dd.map Prod.fst := by
      rw [← hp_eq]
      exact List.mem_map_of_mem Prod.fst hp_mem
    have hgcm : get_close_match1 w (dd.map Prod.snd ++ dd.map Prod.fst) = some w :=
      bestMatch_exact w _ (List.mem_append.mpr (Or.inr hnames)) hall none (Or.inl rfl)
    simp only [hgcm]
    rw [if_neg hncodes, if_pos hnames]
    simp only [hfind]
  · constructor
    · intro hnone
      rcases hgcm : get_close_match1 w (dd.map Prod.snd ++ dd.map Prod.fst)
        with _ | m
      · exact (get_close_match1_none_iff w _).mp hgcm
      · exfalso
        rcases bestMatch_mem w _ none m hgcm with h2 | ⟨hmem, _⟩
        · exact absurd h2 (by simp)
        · simp only [hgcm] at hnone
          by_cases hmc : m ∈ dd.map Prod.snd
          · rw [if_pos hmc] at hnone
            exact absurd hnone (by simp)
          · rcases List.mem_append.mp hmem with hmc2 | hmn
            · exact hmc hmc2
            · rw [if_neg hmc, if_pos hmn] at hnone
              obtain ⟨p, hp, hpm⟩ := List.mem_map.mp hmn
              rcases hfind : dd.find? (fun q => q.1 == m) with _ | p2
              · have := List.find?_eq_none.mp hfind p hp
                simp [hpm] at this
              · simp only [hfind] at hnone
                exact absurd hnone (by simp)
    · intro hbelow
      have hgcm : get_close_match1 w (dd.map Prod.snd ++ dd.map Prod.fst) = none :=
        (get_close_match1_none_iff w _).mpr hbelow
      simp only [hgcm]
  · intro m hgcm
    rcases bestMatch_mem w _ none m hgcm with h2 | ⟨hmem, hthr⟩
    · exact absurd h2 (by simp)
    · obtain ⟨h1, _⟩ := bestMatch_max w _ none m hgcm
      refine ⟨hmem, hthr, fun x hx => ?_⟩
      rcases h1 x hx with hlt | hle
      · exact le_trans (le_of_lt hlt) hthr
      · exact hle

/-- C5 witness: the theorem at the directory `{"computer science": "csci"}`:
resolving the already-canonical code "CSCI" returns itself, and resolving
the exact name "Computer Science" returns the code. -/
theorem C5_department_resolution_witness :
    fuzzy_match_dept [("computer science".data, "csci".data)] "CSCI".data
      = some "CSCI".data
    ∧ fuzzy_match_dept [("computer science".data, "csci".data)]
        "Computer Science".data = some "CSCI".data := by
  constructor
  · have h := (C5_department_resolution
      [("computer science".data, "csci".data)] "CSCI".data).1 (by decide)
    rw [h]
    decide
  · have h := (C5_department_resolution
      [("computer science".data, "csci".data)] "Computer Science".data).2.1
      (by decide) ("computer science".data, "csci".data) (by decide)
    rw [h]
    decide
